import Mathlib

/-!
Verification of the cirrus shadow-framebuffer blit core
(`src/driver/xf86-video-cirrus/src/cir_shadow.c`).

The C functions mutate raw memory through byte/word pointers.  We embed
them shallowly: a memory image is a total function from byte offsets
(`Int`, relative to the buffer base pointer) to byte values (`Nat`),
and each refresh routine is translated into the ordered list of byte
stores it issues; `applyWrites` folds that list over an initial image,
so later stores win exactly as in the imperative code.  Machine stores
through `CARD32*` are modelled little-endian (the driver's x86 target)
by `store32writes`, which truncates the stored value to 32 bits by
construction.  C `int` arithmetic is modelled on `ℤ`; the driver's
`x & ~3` / `x >> 2` idioms on two's-complement ints coincide with
`x - x % 4` / `x / 4` for Lean's Euclidean `%` and `/`, which is how
they are written below.
-/

/-- A byte-addressed memory image: byte offset (relative to the buffer
base pointer) to byte value. -/
abbrev Mem := Int → Nat

/-- The fields of `ScrnInfoRec` that `cir_shadow.c` reads. -/
structure ScrnRec where
  bitsPerPixel : Int
  displayWidth : Int
  virtualX : Int
  virtualY : Int

/-- The fields of `CIRRec` that `cir_shadow.c` reads.  `ShadowPitch` is
the shadow buffer's byte stride; `rotate` is `1` for the 90° rotation
and `-1` for the 270° rotation. -/
structure CirRec where
  ShadowPitch : Int
  rotate : Int

/-- A dirty box (`BoxRec`): half-open rectangle in shadow coordinates. -/
structure Box where
  x1 : Int
  y1 : Int
  x2 : Int
  y2 : Int

/-- `BitmapBytePad(w)` from `servermd.h` for the driver's 32-bit
scanline pad: `((w + 31) >> 5) << 2` bytes for `w` bits. -/
def BitmapBytePad (w : Int) : Int :=
  ((w + 31) / 32) * 4

/-- The four byte stores of a little-endian 32-bit store of value `v`
at byte offset `a` (byte `k` receives bits `8k..8k+7` of `v`). -/
def store32writes (a : Int) (v : Nat) : List (Int × Nat) :=
  (List.range 4).map fun (k : Nat) => (a + (k : Int), v / 2 ^ (8 * k) % 256)

/-- Replay an ordered list of byte stores over a memory image; a later
store to the same offset overwrites an earlier one. -/
def applyWrites (ws : List (Int × Nat)) (m : Mem) : Mem :=
  ws.foldl (fun m w => fun p => if p = w.1 then w.2 else m p) m

/-- The 32-bit value `b0 | b1 << 8 | b2 << 16 | b3 << 24` built by the
packed stores of `cirRefreshArea8` and `cirRefreshArea24`. -/
def pack4 (b0 b1 b2 b3 : Nat) : Nat :=
  b0 ||| b1 <<< 8 ||| b2 <<< 16 ||| b3 <<< 24

/-- The 32-bit value `r0 | r1 << 16` built by the packed store of
`cirRefreshArea16` from two 16-bit pixel reads. -/
def pack2x16 (r0 r1 : Nat) : Nat :=
  r0 ||| r1 <<< 16

/-- A little-endian `CARD16` read at element offset `e` (byte offset
`2*e`). -/
def read16 (m : Mem) (e : Int) : Nat :=
  m (2 * e) ||| m (2 * e + 1) <<< 8

/-- A little-endian `CARD32` read at element offset `e` (byte offset
`4*e`). -/
def read32 (m : Mem) (e : Int) : Nat :=
  pack4 (m (4 * e)) (m (4 * e + 1)) (m (4 * e + 2)) (m (4 * e + 3))

/-- `cirPointerMoved` (cir_shadow.c:45-61): transform a raw pointer
coordinate for the active rotation.  Returns the `(newX, newY)` pair
forwarded to the wrapped `PointerMoved` handler; `width`/`height` are
`pScrn->pScreen->width/height`. -/
def cirPointerMoved (rotate width height x y : Int) : Int × Int :=
  if rotate = 1 then (height - y - 1, x) else (y, width - x - 1)

/-- One box of `cirRefreshArea` (cir_shadow.c:18-43): the unrotated
scanline copier.  `memcpy(dst, src, width)` becomes `width` byte
stores per scanline, for `height` scanlines top-to-bottom. -/
def cirRefreshAreaBox (pScrn : ScrnRec) (pCir : CirRec) (shadow : Mem)
    (b : Box) : List (Int × Nat) :=
  let Bpp := pScrn.bitsPerPixel / 8
  let FBPitch := BitmapBytePad (pScrn.displayWidth * pScrn.bitsPerPixel)
  let width := (b.x2 - b.x1) * Bpp
  let height := b.y2 - b.y1
  let src := b.y1 * pCir.ShadowPitch + b.x1 * Bpp
  let dst := b.y1 * FBPitch + b.x1 * Bpp
  (List.range height.toNat).flatMap fun (r : Nat) =>
    (List.range width.toNat).map fun (k : Nat) =>
      (dst + (r : Int) * FBPitch + (k : Int),
       shadow (src + (r : Int) * pCir.ShadowPitch + (k : Int)))

/-- `cirRefreshArea`: process the supplied box list in order. -/
def cirRefreshArea (pScrn : ScrnRec) (pCir : CirRec) (shadow : Mem)
    (boxes : List Box) : List (Int × Nat) :=
  boxes.flatMap (cirRefreshAreaBox pScrn pCir shadow)

/-- One box of `cirRefreshArea8` (cir_shadow.c:63-106): the 8 bpp
rotating blitter.  Offsets are in bytes.  `y1 & ~3` and
`(y2 + 3) & ~3` are written with Euclidean `%`, and `>> 2` as `/ 4`,
which agree with the C idioms on two's-complement ints. -/
def cirRefreshArea8Box (pScrn : ScrnRec) (pCir : CirRec) (shadow : Mem)
    (b : Box) : List (Int × Nat) :=
  let dstPitch := pScrn.displayWidth
  let srcPitch := -pCir.rotate * pCir.ShadowPitch
  let width := b.x2 - b.x1
  let y1 := b.y1 - b.y1 % 4
  let y2 := (b.y2 + 3) - (b.y2 + 3) % 4
  let height := (y2 - y1) / 4
  let dstPtr := if pCir.rotate = 1 then
      b.x1 * dstPitch + pScrn.virtualX - y2
    else
      (pScrn.virtualY - b.x2) * dstPitch + y1
  let srcPtr := if pCir.rotate = 1 then
      (1 - y2) * srcPitch + b.x1
    else
      y1 * srcPitch + b.x2 - 1
  (List.range width.toNat).flatMap fun (i : Nat) =>
    let srcI := srcPtr + pCir.rotate * (i : Int)
    let dstI := dstPtr + dstPitch * (i : Int)
    (List.range height.toNat).flatMap fun (j : Nat) =>
      let src := srcI + srcPitch * 4 * (j : Int)
      store32writes (dstI + 4 * (j : Int))
        (pack4 (shadow src) (shadow (src + srcPitch))
          (shadow (src + srcPitch * 2)) (shadow (src + srcPitch * 3)))

/-- `cirRefreshArea8`: process the supplied box list in order. -/
def cirRefreshArea8 (pScrn : ScrnRec) (pCir : CirRec) (shadow : Mem)
    (boxes : List Box) : List (Int × Nat) :=
  boxes.flatMap (cirRefreshArea8Box pScrn pCir shadow)

/-- One box of `cirRefreshArea16` (cir_shadow.c:109-152): the 16 bpp
rotating blitter.  `dstPtr`/`srcPtr`/`srcPitch` are in `CARD16`
elements as in the C code; the emitted store offsets are bytes. -/
def cirRefreshArea16Box (pScrn : ScrnRec) (pCir : CirRec) (shadow : Mem)
    (b : Box) : List (Int × Nat) :=
  let dstPitch := pScrn.displayWidth
  let srcPitch := -pCir.rotate * pCir.ShadowPitch / 2
  let width := b.x2 - b.x1
  let y1 := b.y1 - b.y1 % 2
  let y2 := (b.y2 + 1) - (b.y2 + 1) % 2
  let height := (y2 - y1) / 2
  let dstPtr := if pCir.rotate = 1 then
      b.x1 * dstPitch + pScrn.virtualX - y2
    else
      (pScrn.virtualY - b.x2) * dstPitch + y1
  let srcPtr := if pCir.rotate = 1 then
      (1 - y2) * srcPitch + b.x1
    else
      y1 * srcPitch + b.x2 - 1
  (List.range width.toNat).flatMap fun (i : Nat) =>
    let srcI := srcPtr + pCir.rotate * (i : Int)
    let dstI := dstPtr + dstPitch * (i : Int)
    (List.range height.toNat).flatMap fun (j : Nat) =>
      let src := srcI + srcPitch * 2 * (j : Int)
      store32writes (2 * dstI + 4 * (j : Int))
        (pack2x16 (read16 shadow src) (read16 shadow (src + srcPitch)))

/-- `cirRefreshArea16`: process the supplied box list in order. -/
def cirRefreshArea16 (pScrn : ScrnRec) (pCir : CirRec) (shadow : Mem)
    (boxes : List Box) : List (Int × Nat) :=
  boxes.flatMap (cirRefreshArea16Box pScrn pCir shadow)

/-- One box of `cirRefreshArea24` (cir_shadow.c:156-205): the 24 bpp
rotating blitter.  Offsets are in bytes; each inner step issues the
three packed `CARD32` stores `dst[0]`, `dst[1]`, `dst[2]`. -/
def cirRefreshArea24Box (pScrn : ScrnRec) (pCir : CirRec) (shadow : Mem)
    (b : Box) : List (Int × Nat) :=
  let dstPitch := BitmapBytePad (pScrn.displayWidth * 24)
  let srcPitch := -pCir.rotate * pCir.ShadowPitch
  let width := b.x2 - b.x1
  let y1 := b.y1 - b.y1 % 4
  let y2 := (b.y2 + 3) - (b.y2 + 3) % 4
  let height := (y2 - y1) / 4
  let dstPtr := if pCir.rotate = 1 then
      b.x1 * dstPitch + (pScrn.virtualX - y2) * 3
    else
      (pScrn.virtualY - b.x2) * dstPitch + y1 * 3
  let srcPtr := if pCir.rotate = 1 then
      (1 - y2) * srcPitch + b.x1 * 3
    else
      y1 * srcPitch + b.x2 * 3 - 3
  (List.range width.toNat).flatMap fun (i : Nat) =>
    let srcI := srcPtr + pCir.rotate * 3 * (i : Int)
    let dstI := dstPtr + dstPitch * (i : Int)
    (List.range height.toNat).flatMap fun (j : Nat) =>
      let src := srcI + srcPitch * 4 * (j : Int)
      let d := dstI + 12 * (j : Int)
      store32writes d
        (pack4 (shadow src) (shadow (src + 1)) (shadow (src + 2))
          (shadow (src + srcPitch))) ++
      store32writes (d + 4)
        (pack4 (shadow (src + srcPitch + 1)) (shadow (src + srcPitch + 2))
          (shadow (src + srcPitch * 2)) (shadow (src + srcPitch * 2 + 1))) ++
      store32writes (d + 8)
        (pack4 (shadow (src + srcPitch * 2 + 2)) (shadow (src + srcPitch * 3))
          (shadow (src + srcPitch * 3 + 1)) (shadow (src + srcPitch * 3 + 2)))

/-- `cirRefreshArea24`: process the supplied box list in order. -/
def cirRefreshArea24 (pScrn : ScrnRec) (pCir : CirRec) (shadow : Mem)
    (boxes : List Box) : List (Int × Nat) :=
  boxes.flatMap (cirRefreshArea24Box pScrn pCir shadow)

/-- One box of `cirRefreshArea32` (cir_shadow.c:207-247): the 32 bpp
rotating blitter.  `dstPtr`/`srcPtr`/`srcPitch` are in `CARD32`
elements as in the C code; no row-range alignment is applied. -/
def cirRefreshArea32Box (pScrn : ScrnRec) (pCir : CirRec) (shadow : Mem)
    (b : Box) : List (Int × Nat) :=
  let dstPitch := pScrn.displayWidth
  let srcPitch := -pCir.rotate * pCir.ShadowPitch / 4
  let width := b.x2 - b.x1
  let height := b.y2 - b.y1
  let dstPtr := if pCir.rotate = 1 then
      b.x1 * dstPitch + pScrn.virtualX - b.y2
    else
      (pScrn.virtualY - b.x2) * dstPitch + b.y1
  let srcPtr := if pCir.rotate = 1 then
      (1 - b.y2) * srcPitch + b.x1
    else
      b.y1 * srcPitch + b.x2 - 1
  (List.range width.toNat).flatMap fun (i : Nat) =>
    let srcI := srcPtr + pCir.rotate * (i : Int)
    let dstI := dstPtr + dstPitch * (i : Int)
    (List.range height.toNat).flatMap fun (j : Nat) =>
      let src := srcI + srcPitch * (j : Int)
      store32writes (4 * (dstI + (j : Int))) (read32 shadow src)

/-- `cirRefreshArea32`: process the supplied box list in order. -/
def cirRefreshArea32 (pScrn : ScrnRec) (pCir : CirRec) (shadow : Mem)
    (boxes : List Box) : List (Int × Nat) :=
  boxes.flatMap (cirRefreshArea32Box pScrn pCir shadow)

/-! ### Arithmetic helpers for the packed stores -/

/-- Oring a value below `2^n` with a value shifted left by `n` is plain
addition: the bit ranges are disjoint. -/
theorem lor_shiftLeft_eq_add {n : Nat} (a b : Nat) (h : a < 2 ^ n) :
    a ||| b <<< n = 2 ^ n * b + a := by
  apply Nat.eq_of_testBit_eq
  intro i
  rw [Nat.testBit_or, Nat.testBit_shiftLeft, Nat.testBit_mul_pow_two_add b h i]
  by_cases hi : i < n
  · have hge : ¬(i ≥ n) := by omega
    simp [hi, hge]
  · have hge : i ≥ n := by omega
    have ha : a.testBit i = false :=
      Nat.testBit_lt_two_pow
        (lt_of_lt_of_le h (Nat.pow_le_pow_right (by norm_num) hge))
    simp [hi, hge, ha]

/-- The packed dword of four bytes, as plain arithmetic. -/
theorem pack4_eq (b0 b1 b2 b3 : Nat) (h0 : b0 < 256) (h1 : b1 < 256)
    (h2 : b2 < 256) (h3 : b3 < 256) :
    pack4 b0 b1 b2 b3 = b0 + 256 * b1 + 65536 * b2 + 16777216 * b3 := by
  unfold pack4
  have e1 : b0 ||| b1 <<< 8 = 2 ^ 8 * b1 + b0 :=
    lor_shiftLeft_eq_add _ _ (by norm_num; omega)
  rw [e1]
  have e2 : 2 ^ 8 * b1 + b0 ||| b2 <<< 16 = 2 ^ 16 * b2 + (2 ^ 8 * b1 + b0) :=
    lor_shiftLeft_eq_add _ _ (by norm_num; omega)
  rw [e2]
  have e3 : 2 ^ 16 * b2 + (2 ^ 8 * b1 + b0) ||| b3 <<< 24 =
      2 ^ 24 * b3 + (2 ^ 16 * b2 + (2 ^ 8 * b1 + b0)) :=
    lor_shiftLeft_eq_add _ _ (by norm_num; omega)
  rw [e3]
  norm_num
  omega

/-- The packed dword of two 16-bit reads, as plain arithmetic over the
four underlying bytes. -/
theorem pack2x16_read16 (m : Mem) (e f : Int) (he0 : m (2 * e) < 256)
    (he1 : m (2 * e + 1) < 256) (hf0 : m (2 * f) < 256)
    (hf1 : m (2 * f + 1) < 256) :
    pack2x16 (read16 m e) (read16 m f) =
      m (2 * e) + 256 * m (2 * e + 1) + 65536 * m (2 * f) +
        16777216 * m (2 * f + 1) := by
  unfold pack2x16 read16
  have e1 : m (2 * e) ||| m (2 * e + 1) <<< 8 = 2 ^ 8 * m (2 * e + 1) + m (2 * e) :=
    lor_shiftLeft_eq_add _ _ (by norm_num; omega)
  have e2 : m (2 * f) ||| m (2 * f + 1) <<< 8 = 2 ^ 8 * m (2 * f + 1) + m (2 * f) :=
    lor_shiftLeft_eq_add _ _ (by norm_num; omega)
  rw [e1, e2]
  have e3 : 2 ^ 8 * m (2 * e + 1) + m (2 * e) |||
      (2 ^ 8 * m (2 * f + 1) + m (2 * f)) <<< 16 =
      2 ^ 16 * (2 ^ 8 * m (2 * f + 1) + m (2 * f)) +
        (2 ^ 8 * m (2 * e + 1) + m (2 * e)) :=
    lor_shiftLeft_eq_add _ _ (by norm_num; omega)
  rw [e3]
  norm_num
  omega

/-- A 32-bit store of a value with known byte decomposition is exactly
four byte stores of those bytes. -/
theorem store32writes_eq (a : Int) (v b0 b1 b2 b3 : Nat) (h0 : b0 < 256)
    (h1 : b1 < 256) (h2 : b2 < 256) (h3 : b3 < 256)
    (hv : v = b0 + 256 * b1 + 65536 * b2 + 16777216 * b3) :
    store32writes a v = [(a, b0), (a + 1, b1), (a + 2, b2), (a + 3, b3)] := by
  unfold store32writes
  rw [show List.range 4 = [0, 1, 2, 3] from rfl]
  simp only [List.map]
  rw [hv]
  norm_num
  refine ⟨?_, ?_, ?_, ?_⟩ <;> omega

/-! ### Replay lemmas for write traces -/

theorem applyWrites_nil (m : Mem) : applyWrites [] m = m := rfl

theorem applyWrites_cons (w : Int × Nat) (ws : List (Int × Nat)) (m : Mem) :
    applyWrites (w :: ws) m =
      applyWrites ws (fun p => if p = w.1 then w.2 else m p) := rfl

theorem applyWrites_append (l1 l2 : List (Int × Nat)) (m : Mem) :
    applyWrites (l1 ++ l2) m = applyWrites l2 (applyWrites l1 m) := by
  unfold applyWrites
  rw [List.foldl_append]

/-- An offset no store touches keeps its initial value. -/
theorem applyWrites_not_mem (ws : List (Int × Nat)) (m : Mem) (a : Int)
    (h : ∀ w ∈ ws, w.1 ≠ a) : applyWrites ws m a = m a := by
  induction ws generalizing m with
  | nil => rfl
  | cons w ws ih =>
    rw [applyWrites_cons]
    rw [ih _ (fun w' hw' => h w' (List.mem_cons_of_mem _ hw'))]
    have hne : a ≠ w.1 := fun hx => h w (List.mem_cons_self _ _) hx.symm
    simp [hne]

/-- If the trace stores `v` at `a` and every store to `a` in the trace
stores that same `v`, the final value at `a` is `v`. -/
theorem applyWrites_mem (ws : List (Int × Nat)) (m : Mem) (a : Int) (v : Nat)
    (hmem : (a, v) ∈ ws) (huniq : ∀ w ∈ ws, w.1 = a → w.2 = v) :
    applyWrites ws m a = v := by
  induction ws generalizing m with
  | nil => cases hmem
  | cons w ws ih =>
    rw [applyWrites_cons]
    by_cases hws : ∀ w' ∈ ws, w'.1 ≠ a
    · rw [applyWrites_not_mem ws _ a hws]
      rcases List.mem_cons.1 hmem with h | h
      · rw [← h]
        simp
      · exact absurd rfl (hws _ h)
    · push_neg at hws
      obtain ⟨w', hw', hw'a⟩ := hws
      have hv' : w'.2 = v := huniq w' (List.mem_cons_of_mem _ hw') hw'a
      have hmem' : (a, v) ∈ ws := by
        have : w' = (a, v) := Prod.ext hw'a hv'
        rw [← this]
        exact hw'
      exact ih _ hmem' (fun w'' hw'' => huniq w'' (List.mem_cons_of_mem _ hw''))

/-- Replaying a trace gives the same image from two starts that agree
outside the stored offsets. -/
theorem applyWrites_congr (ws : List (Int × Nat)) (m1 m2 : Mem)
    (h : ∀ a, (∀ w ∈ ws, w.1 ≠ a) → m1 a = m2 a) :
    applyWrites ws m1 = applyWrites ws m2 := by
  induction ws generalizing m1 m2 with
  | nil =>
    funext a
    exact h a (by simp)
  | cons w ws ih =>
    rw [applyWrites_cons, applyWrites_cons]
    apply ih
    intro a ha
    by_cases haw : a = w.1
    · simp [haw]
    · simp only [if_neg haw]
      refine h a ?_
      intro w' hw'
      rcases List.mem_cons.1 hw' with h' | h'
      · rw [h']
        exact fun hx => haw hx.symm
      · exact ha w' h'

/-- Replaying the same trace twice is the same as replaying it once:
the stored values do not depend on the destination image. -/
theorem applyWrites_idem (ws : List (Int × Nat)) (m : Mem) :
    applyWrites ws (applyWrites ws m) = applyWrites ws m := by
  apply applyWrites_congr
  intro a ha
  exact applyWrites_not_mem ws m a ha

/-- Stored byte values stay below 256. -/
theorem applyWrites_lt256 (ws : List (Int × Nat)) (m : Mem)
    (hm : ∀ a, m a < 256) (hws : ∀ w ∈ ws, w.2 < 256) :
    ∀ a, applyWrites ws m a < 256 := by
  induction ws generalizing m with
  | nil => exact hm
  | cons w ws ih =>
    intro a
    rw [applyWrites_cons]
    refine ih _ ?_ (fun w' hw' => hws w' (List.mem_cons_of_mem _ hw')) a
    intro p
    by_cases hp : p = w.1
    · simpa [hp] using hws w (List.mem_cons_self _ _)
    · simpa [hp] using hm p

/-- Every byte a 32-bit store emits is below 256. -/
theorem store32writes_val_lt (a : Int) (v : Nat) :
    ∀ w ∈ store32writes a v, w.2 < 256 := by
  intro w hw
  simp only [store32writes, List.mem_map, List.mem_range] at hw
  obtain ⟨k, _, hkw⟩ := hw
  rw [← hkw]
  exact Nat.mod_lt _ (by norm_num)

/-- Decompose equal row-major addresses with in-row columns. -/
theorem rowcol_inj {d r1 c1 r2 c2 : Int} (hc1 : 0 ≤ c1) (hc1d : c1 < d)
    (hc2 : 0 ≤ c2) (hc2d : c2 < d) (h : r1 * d + c1 = r2 * d + c2) :
    r1 = r2 ∧ c1 = c2 := by
  have hd : (0 : Int) < d := lt_of_le_of_lt hc1 hc1d
  have h1 : (r1 - r2) * d = c2 - c1 := by ring_nf; linarith
  have h2 : c2 - c1 = 0 := by
    refine @Int.eq_zero_of_abs_lt_dvd d (c2 - c1) ⟨r1 - r2, ?_⟩ ?_
    · rw [← h1]; ring
    · rw [abs_lt]; constructor <;> linarith
  have h3 : (r1 - r2) * d = 0 := by rw [h1, h2]
  rcases mul_eq_zero.1 h3 with h4 | h4
  · constructor <;> linarith
  · exact absurd h4 (ne_of_gt hd)

/-! ### Refresh traces of simple box lists -/

theorem cirRefreshArea_singleton (pScrn : ScrnRec) (pCir : CirRec)
    (shadow : Mem) (b : Box) :
    cirRefreshArea pScrn pCir shadow [b] = cirRefreshAreaBox pScrn pCir shadow b := by
  simp [cirRefreshArea]

theorem cirRefreshArea8_singleton (pScrn : ScrnRec) (pCir : CirRec)
    (shadow : Mem) (b : Box) :
    cirRefreshArea8 pScrn pCir shadow [b] = cirRefreshArea8Box pScrn pCir shadow b := by
  simp [cirRefreshArea8]

theorem cirRefreshArea16_singleton (pScrn : ScrnRec) (pCir : CirRec)
    (shadow : Mem) (b : Box) :
    cirRefreshArea16 pScrn pCir shadow [b] = cirRefreshArea16Box pScrn pCir shadow b := by
  simp [cirRefreshArea16]

theorem cirRefreshArea24_singleton (pScrn : ScrnRec) (pCir : CirRec)
    (shadow : Mem) (b : Box) :
    cirRefreshArea24 pScrn pCir shadow [b] = cirRefreshArea24Box pScrn pCir shadow b := by
  simp [cirRefreshArea24]

theorem cirRefreshArea32_singleton (pScrn : ScrnRec) (pCir : CirRec)
    (shadow : Mem) (b : Box) :
    cirRefreshArea32 pScrn pCir shadow [b] = cirRefreshArea32Box pScrn pCir shadow b := by
  simp [cirRefreshArea32]

theorem applyWrites_dup (l : List (Int × Nat)) (fb : Mem) :
    applyWrites (l ++ l) fb = applyWrites l fb := by
  rw [applyWrites_append, applyWrites_idem]

/-! ### Claims about the pointer transform -/

/-- C4: for every raw coordinate and screen size, `cirPointerMoved`
computes `(height - y - 1, x)` when the rotation is `1` (Rotate90) and
`(y, width - x - 1)` otherwise; at width 800, height 600, input
`(10, 5)` the two branches give `(594, 10)` and `(5, 789)`. -/
theorem cirPointerMoved_formula :
    (∀ rotate width height x y : Int,
      cirPointerMoved rotate width height x y =
        if rotate = 1 then (height - y - 1, x) else (y, width - x - 1)) ∧
    cirPointerMoved 1 800 600 10 5 = (594, 10) ∧
    cirPointerMoved 0 800 600 10 5 = (5, 789) ∧
    cirPointerMoved (-1) 800 600 10 5 = (5, 789) :=
  ⟨fun _ _ _ _ _ => rfl, by decide, by decide, by decide⟩

/-- C10: for `0 ≤ x < width` and `0 ≤ y < height`, both branches of
the pointer transform land inside the transposed screen rectangle:
`0 ≤ newX < height` and `0 ≤ newY < width`. -/
theorem cirPointerMoved_in_range (rotate width height x y : Int)
    (hx : 0 ≤ x) (hx' : x < width) (hy : 0 ≤ y) (hy' : y < height) :
    0 ≤ (cirPointerMoved rotate width height x y).1 ∧
    (cirPointerMoved rotate width height x y).1 < height ∧
    0 ≤ (cirPointerMoved rotate width height x y).2 ∧
    (cirPointerMoved rotate width height x y).2 < width := by
  unfold cirPointerMoved
  by_cases h : rotate = 1
  · rw [if_pos h]
    dsimp only
    exact ⟨by omega, by omega, by omega, by omega⟩
  · rw [if_neg h]
    dsimp only
    exact ⟨by omega, by omega, by omega, by omega⟩

/-- Witness for C10 at rotation 1, screen 800x600, input (10, 5). -/
theorem cirPointerMoved_in_range_witness :
    0 ≤ (cirPointerMoved 1 800 600 10 5).1 ∧
    (cirPointerMoved 1 800 600 10 5).1 < 600 ∧
    0 ≤ (cirPointerMoved 1 800 600 10 5).2 ∧
    (cirPointerMoved 1 800 600 10 5).2 < 800 :=
  cirPointerMoved_in_range 1 800 600 10 5 (by decide) (by decide) (by decide)
    (by decide)

/-! ### Concrete fixtures used by witnesses and counterexamples -/

/-- All-zero memory image. -/
def mem0 : Mem := fun _ => 0

/-- A 4x4 shadow image with three nonzero bytes. -/
def shTest : Mem := fun a => if a = 1 then 7 else if a = 5 then 9 else if a = 2 then 3 else 0

/-- Every byte of `mem0` is below 256. -/
theorem mem0_lt256 : ∀ a, mem0 a < 256 := fun _ => by norm_num [mem0]

/-- Every byte of `shTest` is below 256. -/
theorem shTest_lt256 : ∀ a, shTest a < 256 := by
  intro a
  unfold shTest
  split <;> try split <;> try split
  all_goals norm_num

/-! ### C9: empty refreshes write nothing -/

/-- C9: with an empty box list every refresh routine leaves the
framebuffer untouched, and likewise for a single zero-width box
(`x1 = x2`), in the plain copier and in all four rotating blitters. -/
theorem refresh_no_writes (pScrn : ScrnRec) (pCir : CirRec) (shadow fb : Mem)
    (b : Box) (hb : b.x1 = b.x2) :
    applyWrites (cirRefreshArea pScrn pCir shadow []) fb = fb ∧
    applyWrites (cirRefreshArea8 pScrn pCir shadow []) fb = fb ∧
    applyWrites (cirRefreshArea16 pScrn pCir shadow []) fb = fb ∧
    applyWrites (cirRefreshArea24 pScrn pCir shadow []) fb = fb ∧
    applyWrites (cirRefreshArea32 pScrn pCir shadow []) fb = fb ∧
    applyWrites (cirRefreshArea pScrn pCir shadow [b]) fb = fb ∧
    applyWrites (cirRefreshArea8 pScrn pCir shadow [b]) fb = fb ∧
    applyWrites (cirRefreshArea16 pScrn pCir shadow [b]) fb = fb ∧
    applyWrites (cirRefreshArea24 pScrn pCir shadow [b]) fb = fb ∧
    applyWrites (cirRefreshArea32 pScrn pCir shadow [b]) fb = fb := by
  have hw : b.x2 - b.x1 = 0 := by omega
  have h0 : cirRefreshAreaBox pScrn pCir shadow b = [] := by
    simp only [cirRefreshAreaBox]
    rw [hw]
    simp
  have h8 : cirRefreshArea8Box pScrn pCir shadow b = [] := by
    simp only [cirRefreshArea8Box]
    rw [hw]
    simp
  have h16 : cirRefreshArea16Box pScrn pCir shadow b = [] := by
    simp only [cirRefreshArea16Box]
    rw [hw]
    simp
  have h24 : cirRefreshArea24Box pScrn pCir shadow b = [] := by
    simp only [cirRefreshArea24Box]
    rw [hw]
    simp
  have h32 : cirRefreshArea32Box pScrn pCir shadow b = [] := by
    simp only [cirRefreshArea32Box]
    rw [hw]
    simp
  refine ⟨rfl, rfl, rfl, rfl, rfl, ?_, ?_, ?_, ?_, ?_⟩
  · rw [cirRefreshArea_singleton, h0]; rfl
  · rw [cirRefreshArea8_singleton, h8]; rfl
  · rw [cirRefreshArea16_singleton, h16]; rfl
  · rw [cirRefreshArea24_singleton, h24]; rfl
  · rw [cirRefreshArea32_singleton, h32]; rfl

/-- Witness for C9 at a concrete configuration and zero-width box. -/
theorem refresh_no_writes_witness :
    applyWrites (cirRefreshArea ⟨8, 4, 4, 4⟩ ⟨4, 1⟩ shTest []) mem0 = mem0 ∧
    applyWrites (cirRefreshArea8 ⟨8, 4, 4, 4⟩ ⟨4, 1⟩ shTest []) mem0 = mem0 ∧
    applyWrites (cirRefreshArea16 ⟨8, 4, 4, 4⟩ ⟨4, 1⟩ shTest []) mem0 = mem0 ∧
    applyWrites (cirRefreshArea24 ⟨8, 4, 4, 4⟩ ⟨4, 1⟩ shTest []) mem0 = mem0 ∧
    applyWrites (cirRefreshArea32 ⟨8, 4, 4, 4⟩ ⟨4, 1⟩ shTest []) mem0 = mem0 ∧
    applyWrites (cirRefreshArea ⟨8, 4, 4, 4⟩ ⟨4, 1⟩ shTest [⟨2, 0, 2, 3⟩]) mem0 = mem0 ∧
    applyWrites (cirRefreshArea8 ⟨8, 4, 4, 4⟩ ⟨4, 1⟩ shTest [⟨2, 0, 2, 3⟩]) mem0 = mem0 ∧
    applyWrites (cirRefreshArea16 ⟨8, 4, 4, 4⟩ ⟨4, 1⟩ shTest [⟨2, 0, 2, 3⟩]) mem0 = mem0 ∧
    applyWrites (cirRefreshArea24 ⟨8, 4, 4, 4⟩ ⟨4, 1⟩ shTest [⟨2, 0, 2, 3⟩]) mem0 = mem0 ∧
    applyWrites (cirRefreshArea32 ⟨8, 4, 4, 4⟩ ⟨4, 1⟩ shTest [⟨2, 0, 2, 3⟩]) mem0 = mem0 :=
  refresh_no_writes ⟨8, 4, 4, 4⟩ ⟨4, 1⟩ shTest mem0 ⟨2, 0, 2, 3⟩ rfl

/-! ### C8: in-order processing and harmless duplicate boxes -/

/-- C8: every refresh routine processes its box list strictly in the
supplied order with no merging (the trace of `b :: bs` is the trace of
`b` followed by the trace of `bs`), and refreshing the duplicated list
`[b, b]` leaves the framebuffer exactly as refreshing `[b]`. -/
theorem refresh_order_idem (pScrn : ScrnRec) (pCir : CirRec) (shadow fb : Mem)
    (b : Box) (bs : List Box) :
    (cirRefreshArea pScrn pCir shadow (b :: bs) =
      cirRefreshAreaBox pScrn pCir shadow b ++ cirRefreshArea pScrn pCir shadow bs) ∧
    (cirRefreshArea8 pScrn pCir shadow (b :: bs) =
      cirRefreshArea8Box pScrn pCir shadow b ++ cirRefreshArea8 pScrn pCir shadow bs) ∧
    (cirRefreshArea16 pScrn pCir shadow (b :: bs) =
      cirRefreshArea16Box pScrn pCir shadow b ++ cirRefreshArea16 pScrn pCir shadow bs) ∧
    (cirRefreshArea24 pScrn pCir shadow (b :: bs) =
      cirRefreshArea24Box pScrn pCir shadow b ++ cirRefreshArea24 pScrn pCir shadow bs) ∧
    (cirRefreshArea32 pScrn pCir shadow (b :: bs) =
      cirRefreshArea32Box pScrn pCir shadow b ++ cirRefreshArea32 pScrn pCir shadow bs) ∧
    (applyWrites (cirRefreshArea pScrn pCir shadow [b, b]) fb =
      applyWrites (cirRefreshArea pScrn pCir shadow [b]) fb) ∧
    (applyWrites (cirRefreshArea8 pScrn pCir shadow [b, b]) fb =
      applyWrites (cirRefreshArea8 pScrn pCir shadow [b]) fb) ∧
    (applyWrites (cirRefreshArea16 pScrn pCir shadow [b, b]) fb =
      applyWrites (cirRefreshArea16 pScrn pCir shadow [b]) fb) ∧
    (applyWrites (cirRefreshArea24 pScrn pCir shadow [b, b]) fb =
      applyWrites (cirRefreshArea24 pScrn pCir shadow [b]) fb) ∧
    (applyWrites (cirRefreshArea32 pScrn pCir shadow [b, b]) fb =
      applyWrites (cirRefreshArea32 pScrn pCir shadow [b]) fb) := by
  have e0 : cirRefreshArea pScrn pCir shadow [b, b] =
      cirRefreshAreaBox pScrn pCir shadow b ++ cirRefreshAreaBox pScrn pCir shadow b := by
    simp [cirRefreshArea]
  have e8 : cirRefreshArea8 pScrn pCir shadow [b, b] =
      cirRefreshArea8Box pScrn pCir shadow b ++ cirRefreshArea8Box pScrn pCir shadow b := by
    simp [cirRefreshArea8]
  have e16 : cirRefreshArea16 pScrn pCir shadow [b, b] =
      cirRefreshArea16Box pScrn pCir shadow b ++ cirRefreshArea16Box pScrn pCir shadow b := by
    simp [cirRefreshArea16]
  have e24 : cirRefreshArea24 pScrn pCir shadow [b, b] =
      cirRefreshArea24Box pScrn pCir shadow b ++ cirRefreshArea24Box pScrn pCir shadow b := by
    simp [cirRefreshArea24]
  have e32 : cirRefreshArea32 pScrn pCir shadow [b, b] =
      cirRefreshArea32Box pScrn pCir shadow b ++ cirRefreshArea32Box pScrn pCir shadow b := by
    simp [cirRefreshArea32]
  refine ⟨by simp [cirRefreshArea], by simp [cirRefreshArea8], by simp [cirRefreshArea16],
    by simp [cirRefreshArea24], by simp [cirRefreshArea32], ?_, ?_, ?_, ?_, ?_⟩
  · rw [e0, applyWrites_dup, cirRefreshArea_singleton]
  · rw [e8, applyWrites_dup, cirRefreshArea8_singleton]
  · rw [e16, applyWrites_dup, cirRefreshArea16_singleton]
  · rw [e24, applyWrites_dup, cirRefreshArea24_singleton]
  · rw [e32, applyWrites_dup, cirRefreshArea32_singleton]

/-! ### C3: the unrotated copier is an exact per-byte copy -/

/-- Length of a rectangular trace. -/
theorem length_flatMap_map {α : Type} (n m : Nat) (f : Nat → Nat → α) :
    ((List.range n).flatMap fun r => (List.range m).map (f r)).length = n * m := by
  rw [List.length_flatMap]
  have h : (List.length ∘ fun (r : Nat) => (List.range m).map (f r)) =
      fun (_ : Nat) => m := by
    funext r
    simp
  rw [h, List.map_const', List.length_range, List.sum_replicate, smul_eq_mul]

/-- C3: with RotationMode none, refreshing an in-bounds box issues
exactly `width*Bpp` byte stores per scanline for `height` scanlines,
and afterwards every destination byte of the box region equals the
corresponding shadow byte. -/
theorem cirRefreshArea_correct (pScrn : ScrnRec) (pCir : CirRec)
    (shadow fb : Mem) (b : Box)
    (hbpp : pScrn.bitsPerPixel = 8 ∨ pScrn.bitsPerPixel = 16 ∨
      pScrn.bitsPerPixel = 24 ∨ pScrn.bitsPerPixel = 32)
    (hx1 : 0 ≤ b.x1) (hx2 : b.x2 ≤ pScrn.displayWidth) :
    (cirRefreshArea pScrn pCir shadow [b]).length =
      (b.y2 - b.y1).toNat * ((b.x2 - b.x1) * (pScrn.bitsPerPixel / 8)).toNat ∧
    ∀ r c : Int, b.y1 ≤ r → r < b.y2 →
      b.x1 * (pScrn.bitsPerPixel / 8) ≤ c → c < b.x2 * (pScrn.bitsPerPixel / 8) →
      applyWrites (cirRefreshArea pScrn pCir shadow [b]) fb
          (r * BitmapBytePad (pScrn.displayWidth * pScrn.bitsPerPixel) + c) =
        shadow (r * pCir.ShadowPitch + c) := by
  rw [cirRefreshArea_singleton]
  have hB : 0 ≤ pScrn.bitsPerPixel / 8 := by omega
  have hkey : b.x2 * (pScrn.bitsPerPixel / 8) ≤
      BitmapBytePad (pScrn.displayWidth * pScrn.bitsPerPixel) := by
    unfold BitmapBytePad
    rcases hbpp with h | h | h | h <;> rw [h] <;> omega
  have hp0 : 0 ≤ b.x1 * (pScrn.bitsPerPixel / 8) := mul_nonneg hx1 hB
  have hW : (b.x2 - b.x1) * (pScrn.bitsPerPixel / 8) =
      b.x2 * (pScrn.bitsPerPixel / 8) - b.x1 * (pScrn.bitsPerPixel / 8) := by
    ring
  constructor
  · simp only [cirRefreshAreaBox]
    exact length_flatMap_map _ _ _
  · intro r c hr1 hr2 hc1 hc2
    refine applyWrites_mem _ _ _ _ ?_ ?_
    · simp only [cirRefreshAreaBox, List.mem_flatMap, List.mem_map, List.mem_range]
      refine ⟨(r - b.y1).toNat, by omega,
        (c - b.x1 * (pScrn.bitsPerPixel / 8)).toNat, by rw [hW]; omega, ?_⟩
      rw [Prod.mk.injEq]
      rw [Int.toNat_of_nonneg (show 0 ≤ r - b.y1 by omega),
        Int.toNat_of_nonneg (show 0 ≤ c - b.x1 * (pScrn.bitsPerPixel / 8) by omega)]
      exact ⟨by ring, by congr 1; ring⟩
    · intro w hw hwa
      simp only [cirRefreshAreaBox, List.mem_flatMap, List.mem_map,
        List.mem_range] at hw
      obtain ⟨r', hr', k, hk, rfl⟩ := hw
      dsimp only at hwa ⊢
      rw [hW] at hk
      have haddr : (b.y1 + (r' : Int)) *
            BitmapBytePad (pScrn.displayWidth * pScrn.bitsPerPixel) +
            (b.x1 * (pScrn.bitsPerPixel / 8) + (k : Int)) =
          r * BitmapBytePad (pScrn.displayWidth * pScrn.bitsPerPixel) + c := by
        linear_combination hwa
      obtain ⟨hrow, hcol⟩ := rowcol_inj (by omega) (by omega) (by omega)
        (by omega) haddr
      congr 1
      linear_combination pCir.ShadowPitch * hrow + hcol

/-! ### Shadow-read traces of the rotating blitters

For the alignment-overscan claim we also record, per box, the list of
shadow byte offsets each rotating blitter reads.  The loop structure
and source pointers mirror the write traces above; the leaves
enumerate the byte reads of the loop body (`src[0]`, `src[srcPitch]`,
`src[srcPitch*2]`, `src[srcPitch*3]` at 8 bpp, the two `CARD16` reads
at 16 bpp, the twelve byte reads `src[srcPitch*u + v]` at 24 bpp and
the one `CARD32` read at 32 bpp). -/

def cirRefreshArea8BoxReads (pCir : CirRec) (b : Box) : List Int :=
  let srcPitch := -pCir.rotate * pCir.ShadowPitch
  let width := b.x2 - b.x1
  let y1 := b.y1 - b.y1 % 4
  let y2 := (b.y2 + 3) - (b.y2 + 3) % 4
  let height := (y2 - y1) / 4
  let srcPtr := if pCir.rotate = 1 then
      (1 - y2) * srcPitch + b.x1
    else
      y1 * srcPitch + b.x2 - 1
  (List.range width.toNat).flatMap fun (i : Nat) =>
    let srcI := srcPtr + pCir.rotate * (i : Int)
    (List.range height.toNat).flatMap fun (j : Nat) =>
      let src := srcI + srcPitch * 4 * (j : Int)
      (List.range 4).map fun (t : Nat) => src + srcPitch * (t : Int)

def cirRefreshArea16BoxReads (pCir : CirRec) (b : Box) : List Int :=
  let srcPitch := -pCir.rotate * pCir.ShadowPitch / 2
  let width := b.x2 - b.x1
  let y1 := b.y1 - b.y1 % 2
  let y2 := (b.y2 + 1) - (b.y2 + 1) % 2
  let height := (y2 - y1) / 2
  let srcPtr := if pCir.rotate = 1 then
      (1 - y2) * srcPitch + b.x1
    else
      y1 * srcPitch + b.x2 - 1
  (List.range width.toNat).flatMap fun (i : Nat) =>
    let srcI := srcPtr + pCir.rotate * (i : Int)
    (List.range height.toNat).flatMap fun (j : Nat) =>
      let src := srcI + srcPitch * 2 * (j : Int)
      (List.range 2).flatMap fun (t : Nat) =>
        (List.range 2).map fun (u : Nat) =>
          2 * (src + srcPitch * (t : Int)) + (u : Int)

def cirRefreshArea24BoxReads (pCir : CirRec) (b : Box) : List Int :=
  let srcPitch := -pCir.rotate * pCir.ShadowPitch
  let width := b.x2 - b.x1
  let y1 := b.y1 - b.y1 % 4
  let y2 := (b.y2 + 3) - (b.y2 + 3) % 4
  let height := (y2 - y1) / 4
  let srcPtr := if pCir.rotate = 1 then
      (1 - y2) * srcPitch + b.x1 * 3
    else
      y1 * srcPitch + b.x2 * 3 - 3
  (List.range width.toNat).flatMap fun (i : Nat) =>
    let srcI := srcPtr + pCir.rotate * 3 * (i : Int)
    (List.range height.toNat).flatMap fun (j : Nat) =>
      let src := srcI + srcPitch * 4 * (j : Int)
      (List.range 4).flatMap fun (t : Nat) =>
        (List.range 3).map fun (u : Nat) =>
          src + srcPitch * (t : Int) + (u : Int)

def cirRefreshArea32BoxReads (pCir : CirRec) (b : Box) : List Int :=
  let srcPitch := -pCir.rotate * pCir.ShadowPitch / 4
  let width := b.x2 - b.x1
  let height := b.y2 - b.y1
  let srcPtr := if pCir.rotate = 1 then
      (1 - b.y2) * srcPitch + b.x1
    else
      b.y1 * srcPitch + b.x2 - 1
  (List.range width.toNat).flatMap fun (i : Nat) =>
    let srcI := srcPtr + pCir.rotate * (i : Int)
    (List.range height.toNat).flatMap fun (j : Nat) =>
      let src := srcI + srcPitch * (j : Int)
      (List.range 4).map fun (u : Nat) => 4 * src + (u : Int)

/-! ### C5: alignment expansion of the dirty row range -/

/-- C5: each rotating blitter first expands the dirty row range
outward to the nearest packing-group boundary (multiples of 4 for
8/24 bpp, multiples of 2 for 16 bpp, none for 32 bpp), and every
shadow byte it reads lies in a row of the expanded range — hence at
most `group_size - 1` scanlines beyond the nominal box — and in a
column inside the box. -/
theorem rotating_blitter_alignment (pCir : CirRec) (b : Box)
    (hrot : pCir.rotate = 1 ∨ pCir.rotate = -1)
    (h2 : (2 : Int) ∣ pCir.ShadowPitch) (h4 : (4 : Int) ∣ pCir.ShadowPitch) :
    (∀ y : Int, (4 : Int) ∣ y - y % 4 ∧ y - 3 ≤ y - y % 4 ∧ y - y % 4 ≤ y ∧
      (4 : Int) ∣ (y + 3) - (y + 3) % 4 ∧ y ≤ (y + 3) - (y + 3) % 4 ∧
      (y + 3) - (y + 3) % 4 ≤ y + 3) ∧
    (∀ y : Int, (2 : Int) ∣ y - y % 2 ∧ y - 1 ≤ y - y % 2 ∧ y - y % 2 ≤ y ∧
      (2 : Int) ∣ (y + 1) - (y + 1) % 2 ∧ y ≤ (y + 1) - (y + 1) % 2 ∧
      (y + 1) - (y + 1) % 2 ≤ y + 1) ∧
    (∀ a ∈ cirRefreshArea8BoxReads pCir b,
      ∃ row col : Int, a = row * pCir.ShadowPitch + col ∧
        b.y1 - b.y1 % 4 ≤ row ∧ row < (b.y2 + 3) - (b.y2 + 3) % 4 ∧
        b.x1 ≤ col ∧ col < b.x2) ∧
    (∀ a ∈ cirRefreshArea16BoxReads pCir b,
      ∃ row col : Int, a = row * pCir.ShadowPitch + col ∧
        b.y1 - b.y1 % 2 ≤ row ∧ row < (b.y2 + 1) - (b.y2 + 1) % 2 ∧
        2 * b.x1 ≤ col ∧ col < 2 * b.x2) ∧
    (∀ a ∈ cirRefreshArea24BoxReads pCir b,
      ∃ row col : Int, a = row * pCir.ShadowPitch + col ∧
        b.y1 - b.y1 % 4 ≤ row ∧ row < (b.y2 + 3) - (b.y2 + 3) % 4 ∧
        3 * b.x1 ≤ col ∧ col < 3 * b.x2) ∧
    (∀ a ∈ cirRefreshArea32BoxReads pCir b,
      ∃ row col : Int, a = row * pCir.ShadowPitch + col ∧
        b.y1 ≤ row ∧ row < b.y2 ∧
        4 * b.x1 ≤ col ∧ col < 4 * b.x2) := by
  obtain ⟨s2, hs2⟩ := h2
  obtain ⟨s4, hs4⟩ := h4
  refine ⟨fun y => ⟨by omega, by omega, by omega, by omega, by omega, by omega⟩,
    fun y => ⟨by omega, by omega, by omega, by omega, by omega, by omega⟩,
    ?_, ?_, ?_, ?_⟩
  · intro a ha
    simp only [cirRefreshArea8BoxReads, List.mem_flatMap, List.mem_map,
      List.mem_range] at ha
    obtain ⟨i, hi, j, hj, t, ht, hae⟩ := ha
    rcases hrot with h | h
    · simp [h] at hae
      refine ⟨(b.y2 + 3) - (b.y2 + 3) % 4 - 1 - 4 * (j : Int) - (t : Int),
        b.x1 + (i : Int), ?_, by omega, by omega, by omega, by omega⟩
      linear_combination -hae
    · simp [h] at hae
      refine ⟨b.y1 - b.y1 % 4 + 4 * (j : Int) + (t : Int),
        b.x2 - 1 - (i : Int), ?_, by omega, by omega, by omega, by omega⟩
      linear_combination -hae
  · intro a ha
    simp only [cirRefreshArea16BoxReads, List.mem_flatMap, List.mem_map,
      List.mem_range] at ha
    obtain ⟨i, hi, j, hj, t, ht, u, hu, hae⟩ := ha
    rcases hrot with h | h
    · have hD : -pCir.rotate * pCir.ShadowPitch / 2 = -s2 := by rw [h]; omega
      rw [hD] at hae
      rw [hs2]
      refine ⟨(b.y2 + 1) - (b.y2 + 1) % 2 - 1 - 2 * (j : Int) - (t : Int),
        2 * (b.x1 + (i : Int)) + (u : Int), ?_, by omega, by omega, by omega,
        by omega⟩
      simp [h] at hae
      linear_combination -hae
    · have hD : -pCir.rotate * pCir.ShadowPitch / 2 = s2 := by rw [h]; omega
      rw [hD] at hae
      rw [hs2]
      refine ⟨b.y1 - b.y1 % 2 + 2 * (j : Int) + (t : Int),
        2 * (b.x2 - 1 - (i : Int)) + (u : Int), ?_, by omega, by omega,
        by omega, by omega⟩
      simp [h] at hae
      linear_combination -hae
  · intro a ha
    simp only [cirRefreshArea24BoxReads, List.mem_flatMap, List.mem_map,
      List.mem_range] at ha
    obtain ⟨i, hi, j, hj, t, ht, u, hu, hae⟩ := ha
    rcases hrot with h | h
    · simp [h] at hae
      refine ⟨(b.y2 + 3) - (b.y2 + 3) % 4 - 1 - 4 * (j : Int) - (t : Int),
        3 * (b.x1 + (i : Int)) + (u : Int), ?_, by omega, by omega, by omega,
        by omega⟩
      linear_combination -hae
    · simp [h] at hae
      refine ⟨b.y1 - b.y1 % 4 + 4 * (j : Int) + (t : Int),
        3 * (b.x2 - 1 - (i : Int)) + (u : Int), ?_, by omega, by omega,
        by omega, by omega⟩
      linear_combination -hae
  · intro a ha
    simp only [cirRefreshArea32BoxReads, List.mem_flatMap, List.mem_map,
      List.mem_range] at ha
    obtain ⟨i, hi, j, hj, u, hu, hae⟩ := ha
    rcases hrot with h | h
    · have hD : -pCir.rotate * pCir.ShadowPitch / 4 = -s4 := by rw [h]; omega
      rw [hD] at hae
      rw [hs4]
      refine ⟨b.y2 - 1 - (j : Int), 4 * (b.x1 + (i : Int)) + (u : Int), ?_,
        by omega, by omega, by omega, by omega⟩
      simp [h] at hae
      linear_combination -hae
    · have hD : -pCir.rotate * pCir.ShadowPitch / 4 = s4 := by rw [h]; omega
      rw [hD] at hae
      rw [hs4]
      refine ⟨b.y1 + (j : Int), 4 * (b.x2 - 1 - (i : Int)) + (u : Int), ?_,
        by omega, by omega, by omega, by omega⟩
      simp [h] at hae
      linear_combination -hae

/-! ### A uniform normal form for the rotating write traces

Each rotating blitter writes, per dirty box, a `width x height x K`
grid of bytes: destination row `A + i` (row stride `D` bytes), byte
column `B + (K*j + k)`, value depending only on `(i, j, k)` and the
shadow contents.  `gridTrace` is that shape; the lemmas below let us
evaluate a replayed grid exactly, and the blitter traces are proved
equal to grids further down. -/

def gridTrace (W H K : Nat) (D A B : Int) (val : Nat → Nat → Nat → Nat) :
    List (Int × Nat) :=
  (List.range W).flatMap fun (i : Nat) =>
    (List.range H).flatMap fun (j : Nat) =>
      (List.range K).map fun (k : Nat) =>
        ((A + (i : Int)) * D + (B + ((K : Int) * (j : Int) + (k : Int))),
         val i j k)

theorem gridTrace_mem (W H K : Nat) (D A B : Int) (val : Nat → Nat → Nat → Nat) :
    ∀ w ∈ gridTrace W H K D A B val, ∃ i j k : Nat,
      i < W ∧ j < H ∧ k < K ∧
      w = ((A + (i : Int)) * D + (B + ((K : Int) * (j : Int) + (k : Int))),
        val i j k) := by
  intro w hw
  simp only [gridTrace, List.mem_flatMap, List.mem_map, List.mem_range] at hw
  obtain ⟨i, hi, j, hj, k, hk, hwk⟩ := hw
  exact ⟨i, j, k, hi, hj, hk, hwk.symm⟩

theorem gridTrace_val_lt (W H K : Nat) (D A B : Int)
    (val : Nat → Nat → Nat → Nat) (hval : ∀ i j k, val i j k < 256) :
    ∀ w ∈ gridTrace W H K D A B val, w.2 < 256 := by
  intro w hw
  obtain ⟨i, j, k, _, _, _, rfl⟩ := gridTrace_mem W H K D A B val w hw
  exact hval i j k

/-- Replaying a grid trace stores `val i j k` at its grid position,
provided the byte columns stay inside one destination row. -/
theorem applyWrites_gridTrace (W H K : Nat) (D A B : Int)
    (val : Nat → Nat → Nat → Nat) (fb : Mem)
    (hB : 0 ≤ B) (hBK : B + (K : Int) * (H : Int) ≤ D)
    (i j k : Nat) (hi : i < W) (hj : j < H) (hk : k < K) :
    applyWrites (gridTrace W H K D A B val) fb
      ((A + (i : Int)) * D + (B + ((K : Int) * (j : Int) + (k : Int)))) =
      val i j k := by
  have hK : 0 < K := by omega
  refine applyWrites_mem _ _ _ _ ?_ ?_
  · simp only [gridTrace, List.mem_flatMap, List.mem_map, List.mem_range]
    exact ⟨i, hi, j, hj, k, hk, rfl⟩
  · intro w hw hwa
    obtain ⟨i', j', k', hi', hj', hk', rfl⟩ :=
      gridTrace_mem W H K D A B val w hw
    dsimp only at hwa ⊢
    have hmono : ∀ j'' : Nat, j'' < H →
        (K : Int) * (j'' : Int) ≤ (K : Int) * (H : Int) - (K : Int) := by
      intro j'' hj''
      have ha : (j'' : Int) ≤ (H : Int) - 1 := by omega
      have hb' : (K : Int) * (j'' : Int) ≤ (K : Int) * ((H : Int) - 1) :=
        mul_le_mul_of_nonneg_left ha (by positivity)
      have hc' : (K : Int) * ((H : Int) - 1) = (K : Int) * (H : Int) - K := by
        ring
      omega
    have hb1 := hmono j' hj'
    have hb2 := hmono j hj
    have h1 : 0 ≤ B + ((K : Int) * (j' : Int) + (k' : Int)) :=
      add_nonneg hB (by positivity)
    have h3 : 0 ≤ B + ((K : Int) * (j : Int) + (k : Int)) :=
      add_nonneg hB (by positivity)
    have h2 : B + ((K : Int) * (j' : Int) + (k' : Int)) < D := by omega
    have h4 : B + ((K : Int) * (j : Int) + (k : Int)) < D := by omega
    obtain ⟨hrow, hcoleq⟩ := rowcol_inj h1 h2 h3 h4 hwa
    have hii : i' = i := by omega
    have hcoleq' : (j' : Int) * (K : Int) + (k' : Int) =
        (j : Int) * (K : Int) + (k : Int) := by
      linear_combination hcoleq
    obtain ⟨hjj, hkk⟩ := rowcol_inj (by positivity) (by omega) (by positivity)
      (by omega) hcoleq'
    have hj3 : j' = j := by omega
    have hk3 : k' = k := by omega
    rw [hii, hj3, hk3]

/-! ### The rotating blitters as grid traces -/

/-- The 8 bpp box trace for rotation 1: destination rows `x1+i`, byte
columns `virtualX - y2a + (4j+k)` (with `y2a` the aligned `y2`), each
byte copied from shadow row `y2a - 1 - (4j+k)`, column `x1+i`. -/
theorem cirRefreshArea8Box_grid90 (pScrn : ScrnRec) (pCir : CirRec)
    (shadow : Mem) (b : Box) (hrot : pCir.rotate = 1)
    (hsh : ∀ p : Int, shadow p < 256) :
    cirRefreshArea8Box pScrn pCir shadow b =
      gridTrace (b.x2 - b.x1).toNat
        ((((b.y2 + 3) - (b.y2 + 3) % 4) - (b.y1 - b.y1 % 4)) / 4).toNat 4
        pScrn.displayWidth b.x1
        (pScrn.virtualX - ((b.y2 + 3) - (b.y2 + 3) % 4))
        (fun i j k => shadow
          ((((b.y2 + 3) - (b.y2 + 3) % 4) - 1 - (4 * (j : Int) + (k : Int))) *
            pCir.ShadowPitch + (b.x1 + (i : Int)))) := by
  simp only [cirRefreshArea8Box, gridTrace, hrot]
  norm_num
  congr 1
  funext i
  congr 1
  funext j
  rw [store32writes_eq _ _ _ _ _ _ (hsh _) (hsh _) (hsh _) (hsh _)
    (pack4_eq _ _ _ _ (hsh _) (hsh _) (hsh _) (hsh _))]
  rw [show List.range 4 = [0, 1, 2, 3] from rfl]
  simp only [List.map]
  simp only [List.cons.injEq, Prod.mk.injEq, and_true]
  refine ⟨⟨?_, ?_⟩, ⟨?_, ?_⟩, ⟨?_, ?_⟩, ?_, ?_⟩ <;>
    first
      | (push_cast; ring)
      | (congr 1; push_cast; ring)

/-- The 8 bpp box trace for rotation -1: destination rows
`virtualY - x2 + i`, byte columns `y1a + (4j+k)`, each byte copied
from shadow row `y1a + (4j+k)`, column `x2 - 1 - i`. -/
theorem cirRefreshArea8Box_grid270 (pScrn : ScrnRec) (pCir : CirRec)
    (shadow : Mem) (b : Box) (hrot : pCir.rotate = -1)
    (hsh : ∀ p : Int, shadow p < 256) :
    cirRefreshArea8Box pScrn pCir shadow b =
      gridTrace (b.x2 - b.x1).toNat
        ((((b.y2 + 3) - (b.y2 + 3) % 4) - (b.y1 - b.y1 % 4)) / 4).toNat 4
        pScrn.displayWidth (pScrn.virtualY - b.x2) (b.y1 - b.y1 % 4)
        (fun i j k => shadow
          ((b.y1 - b.y1 % 4 + (4 * (j : Int) + (k : Int))) *
            pCir.ShadowPitch + (b.x2 - 1 - (i : Int)))) := by
  simp only [cirRefreshArea8Box, gridTrace, hrot]
  norm_num
  congr 1
  funext i
  congr 1
  funext j
  rw [store32writes_eq _ _ _ _ _ _ (hsh _) (hsh _) (hsh _) (hsh _)
    (pack4_eq _ _ _ _ (hsh _) (hsh _) (hsh _) (hsh _))]
  rw [show List.range 4 = [0, 1, 2, 3] from rfl]
  simp only [List.map]
  simp only [List.cons.injEq, Prod.mk.injEq, and_true]
  refine ⟨⟨?_, ?_⟩, ⟨?_, ?_⟩, ⟨?_, ?_⟩, ?_, ?_⟩ <;>
    first
      | (push_cast; ring)
      | (congr 1; push_cast; ring)

/-- The 16 bpp box trace for rotation 1 (`ShadowPitch = 2*s`):
destination rows `x1+i` with a `2*displayWidth` byte stride, byte
columns `2*(virtualX - y2a) + (4j+k)`; byte `k` of store `j` comes
from shadow row `y2a - 1 - (2j + k/2)`, pixel column `x1+i`, pixel
byte `k%2`. -/
theorem cirRefreshArea16Box_grid90 (pScrn : ScrnRec) (pCir : CirRec)
    (shadow : Mem) (b : Box) (hrot : pCir.rotate = 1)
    (hsh : ∀ p : Int, shadow p < 256) (s : Int)
    (hs : pCir.ShadowPitch = 2 * s) :
    cirRefreshArea16Box pScrn pCir shadow b =
      gridTrace (b.x2 - b.x1).toNat
        ((((b.y2 + 1) - (b.y2 + 1) % 2) - (b.y1 - b.y1 % 2)) / 2).toNat 4
        (2 * pScrn.displayWidth) b.x1
        (2 * (pScrn.virtualX - ((b.y2 + 1) - (b.y2 + 1) % 2)))
        (fun i j k => shadow
          ((((b.y2 + 1) - (b.y2 + 1) % 2) - 1 -
              (2 * (j : Int) + ((k / 2 : Nat) : Int))) * pCir.ShadowPitch +
            (2 * (b.x1 + (i : Int)) + ((k % 2 : Nat) : Int)))) := by
  have hsp : -pCir.rotate * pCir.ShadowPitch / 2 = -s := by
    rw [hrot, hs]
    omega
  simp only [cirRefreshArea16Box, gridTrace]
  simp only [hsp]
  simp only [hrot, hs]
  norm_num
  congr 1
  funext i
  congr 1
  funext j
  rw [store32writes_eq _ _ _ _ _ _ (hsh _) (hsh _) (hsh _) (hsh _)
    (pack2x16_read16 shadow _ _ (hsh _) (hsh _) (hsh _) (hsh _))]
  rw [show List.range 4 = [0, 1, 2, 3] from rfl]
  simp only [List.map]
  simp only [List.cons.injEq, Prod.mk.injEq, and_true]
  refine ⟨⟨?_, ?_⟩, ⟨?_, ?_⟩, ⟨?_, ?_⟩, ?_, ?_⟩ <;>
    first
      | (push_cast; ring)
      | (congr 1; push_cast; ring)
      | (congr 1; push_cast; norm_num; ring)
      | (congr 1; push_cast; norm_num)

/-- The 16 bpp box trace for rotation -1 (`ShadowPitch = 2*s`). -/
theorem cirRefreshArea16Box_grid270 (pScrn : ScrnRec) (pCir : CirRec)
    (shadow : Mem) (b : Box) (hrot : pCir.rotate = -1)
    (hsh : ∀ p : Int, shadow p < 256) (s : Int)
    (hs : pCir.ShadowPitch = 2 * s) :
    cirRefreshArea16Box pScrn pCir shadow b =
      gridTrace (b.x2 - b.x1).toNat
        ((((b.y2 + 1) - (b.y2 + 1) % 2) - (b.y1 - b.y1 % 2)) / 2).toNat 4
        (2 * pScrn.displayWidth) (pScrn.virtualY - b.x2)
        (2 * (b.y1 - b.y1 % 2))
        (fun i j k => shadow
          ((b.y1 - b.y1 % 2 + (2 * (j : Int) + ((k / 2 : Nat) : Int))) *
              pCir.ShadowPitch +
            (2 * (b.x2 - 1 - (i : Int)) + ((k % 2 : Nat) : Int)))) := by
  have hsp : -pCir.rotate * pCir.ShadowPitch / 2 = s := by
    rw [hrot, hs]
    omega
  simp only [cirRefreshArea16Box, gridTrace]
  simp only [hsp]
  simp only [hrot, hs]
  norm_num
  congr 1
  funext i
  congr 1
  funext j
  rw [store32writes_eq _ _ _ _ _ _ (hsh _) (hsh _) (hsh _) (hsh _)
    (pack2x16_read16 shadow _ _ (hsh _) (hsh _) (hsh _) (hsh _))]
  rw [show List.range 4 = [0, 1, 2, 3] from rfl]
  simp only [List.map]
  simp only [List.cons.injEq, Prod.mk.injEq, and_true]
  refine ⟨⟨?_, ?_⟩, ⟨?_, ?_⟩, ⟨?_, ?_⟩, ?_, ?_⟩ <;>
    first
      | (push_cast; ring)
      | (congr 1; push_cast; ring)
      | (congr 1; push_cast; norm_num; ring)
      | (congr 1; push_cast; norm_num)

/-- The 24 bpp box trace for rotation 1: destination rows `x1+i` (byte
stride `BitmapBytePad(displayWidth*24)`), byte columns
`3*(virtualX - y2a) + (12j+m)`; byte `m` of block `j` comes from
shadow row `y2a - 1 - (4j + m/3)`, pixel column `x1+i`, pixel byte
`m%3`. -/
theorem cirRefreshArea24Box_grid90 (pScrn : ScrnRec) (pCir : CirRec)
    (shadow : Mem) (b : Box) (hrot : pCir.rotate = 1)
    (hsh : ∀ p : Int, shadow p < 256) :
    cirRefreshArea24Box pScrn pCir shadow b =
      gridTrace (b.x2 - b.x1).toNat
        ((((b.y2 + 3) - (b.y2 + 3) % 4) - (b.y1 - b.y1 % 4)) / 4).toNat 12
        (BitmapBytePad (pScrn.displayWidth * 24)) b.x1
        (3 * (pScrn.virtualX - ((b.y2 + 3) - (b.y2 + 3) % 4)))
        (fun i j m => shadow
          ((((b.y2 + 3) - (b.y2 + 3) % 4) - 1 -
              (4 * (j : Int) + ((m / 3 : Nat) : Int))) * pCir.ShadowPitch +
            (3 * (b.x1 + (i : Int)) + ((m % 3 : Nat) : Int)))) := by
  simp only [cirRefreshArea24Box, gridTrace, hrot]
  norm_num
  congr 1
  funext i
  congr 1
  funext j
  rw [store32writes_eq _ _ _ _ _ _ (hsh _) (hsh _) (hsh _) (hsh _)
      (pack4_eq _ _ _ _ (hsh _) (hsh _) (hsh _) (hsh _)),
    store32writes_eq _ _ _ _ _ _ (hsh _) (hsh _) (hsh _) (hsh _)
      (pack4_eq _ _ _ _ (hsh _) (hsh _) (hsh _) (hsh _)),
    store32writes_eq _ _ _ _ _ _ (hsh _) (hsh _) (hsh _) (hsh _)
      (pack4_eq _ _ _ _ (hsh _) (hsh _) (hsh _) (hsh _))]
  rw [show List.range 12 = [0, 1, 2, 3, 4, 5, 6, 7, 8, 9, 10, 11] from rfl]
  simp only [List.map, List.cons_append, List.nil_append]
  simp only [List.cons.injEq, Prod.mk.injEq, and_true]
  refine ⟨⟨?_, ?_⟩, ⟨?_, ?_⟩, ⟨?_, ?_⟩, ⟨?_, ?_⟩, ⟨?_, ?_⟩, ⟨?_, ?_⟩,
    ⟨?_, ?_⟩, ⟨?_, ?_⟩, ⟨?_, ?_⟩, ⟨?_, ?_⟩, ⟨?_, ?_⟩, ?_, ?_⟩ <;>
    first
      | (push_cast; ring)
      | (congr 1; push_cast; ring)
      | (congr 1; push_cast; norm_num; ring)
      | (congr 1; push_cast; norm_num)

/-- The 24 bpp box trace for rotation -1. -/
theorem cirRefreshArea24Box_grid270 (pScrn : ScrnRec) (pCir : CirRec)
    (shadow : Mem) (b : Box) (hrot : pCir.rotate = -1)
    (hsh : ∀ p : Int, shadow p < 256) :
    cirRefreshArea24Box pScrn pCir shadow b =
      gridTrace (b.x2 - b.x1).toNat
        ((((b.y2 + 3) - (b.y2 + 3) % 4) - (b.y1 - b.y1 % 4)) / 4).toNat 12
        (BitmapBytePad (pScrn.displayWidth * 24)) (pScrn.virtualY - b.x2)
        (3 * (b.y1 - b.y1 % 4))
        (fun i j m => shadow
          ((b.y1 - b.y1 % 4 + (4 * (j : Int) + ((m / 3 : Nat) : Int))) *
              pCir.ShadowPitch +
            (3 * (b.x2 - 1 - (i : Int)) + ((m % 3 : Nat) : Int)))) := by
  simp only [cirRefreshArea24Box, gridTrace, hrot]
  norm_num
  congr 1
  funext i
  congr 1
  funext j
  rw [store32writes_eq _ _ _ _ _ _ (hsh _) (hsh _) (hsh _) (hsh _)
      (pack4_eq _ _ _ _ (hsh _) (hsh _) (hsh _) (hsh _)),
    store32writes_eq _ _ _ _ _ _ (hsh _) (hsh _) (hsh _) (hsh _)
      (pack4_eq _ _ _ _ (hsh _) (hsh _) (hsh _) (hsh _)),
    store32writes_eq _ _ _ _ _ _ (hsh _) (hsh _) (hsh _) (hsh _)
      (pack4_eq _ _ _ _ (hsh _) (hsh _) (hsh _) (hsh _))]
  rw [show List.range 12 = [0, 1, 2, 3, 4, 5, 6, 7, 8, 9, 10, 11] from rfl]
  simp only [List.map, List.cons_append, List.nil_append]
  simp only [List.cons.injEq, Prod.mk.injEq, and_true]
  refine ⟨⟨?_, ?_⟩, ⟨?_, ?_⟩, ⟨?_, ?_⟩, ⟨?_, ?_⟩, ⟨?_, ?_⟩, ⟨?_, ?_⟩,
    ⟨?_, ?_⟩, ⟨?_, ?_⟩, ⟨?_, ?_⟩, ⟨?_, ?_⟩, ⟨?_, ?_⟩, ?_, ?_⟩ <;>
    first
      | (push_cast; ring)
      | (congr 1; push_cast; ring)
      | (congr 1; push_cast; norm_num; ring)
      | (congr 1; push_cast; norm_num)

/-- The 32 bpp box trace for rotation 1 (`ShadowPitch = 4*s`):
destination rows `x1+i` with a `4*displayWidth` byte stride, byte
columns `4*(virtualX - y2) + (4j+k)`; no row alignment is applied. -/
theorem cirRefreshArea32Box_grid90 (pScrn : ScrnRec) (pCir : CirRec)
    (shadow : Mem) (b : Box) (hrot : pCir.rotate = 1)
    (hsh : ∀ p : Int, shadow p < 256) (s : Int)
    (hs : pCir.ShadowPitch = 4 * s) :
    cirRefreshArea32Box pScrn pCir shadow b =
      gridTrace (b.x2 - b.x1).toNat (b.y2 - b.y1).toNat 4
        (4 * pScrn.displayWidth) b.x1 (4 * (pScrn.virtualX - b.y2))
        (fun i j k => shadow
          ((b.y2 - 1 - (j : Int)) * pCir.ShadowPitch +
            (4 * (b.x1 + (i : Int)) + (k : Int)))) := by
  have hsp : -pCir.rotate * pCir.ShadowPitch / 4 = -s := by
    rw [hrot, hs]
    omega
  simp only [cirRefreshArea32Box, gridTrace, read32]
  simp only [hsp]
  simp only [hrot, hs]
  norm_num
  congr 1
  funext i
  congr 1
  funext j
  rw [store32writes_eq _ _ _ _ _ _ (hsh _) (hsh _) (hsh _) (hsh _)
    (pack4_eq _ _ _ _ (hsh _) (hsh _) (hsh _) (hsh _))]
  rw [show List.range 4 = [0, 1, 2, 3] from rfl]
  simp only [List.map]
  simp only [List.cons.injEq, Prod.mk.injEq, and_true]
  refine ⟨⟨?_, ?_⟩, ⟨?_, ?_⟩, ⟨?_, ?_⟩, ?_, ?_⟩ <;>
    first
      | (push_cast; ring)
      | (congr 1; push_cast; ring)

/-- The 32 bpp box trace for rotation -1 (`ShadowPitch = 4*s`). -/
theorem cirRefreshArea32Box_grid270 (pScrn : ScrnRec) (pCir : CirRec)
    (shadow : Mem) (b : Box) (hrot : pCir.rotate = -1)
    (hsh : ∀ p : Int, shadow p < 256) (s : Int)
    (hs : pCir.ShadowPitch = 4 * s) :
    cirRefreshArea32Box pScrn pCir shadow b =
      gridTrace (b.x2 - b.x1).toNat (b.y2 - b.y1).toNat 4
        (4 * pScrn.displayWidth) (pScrn.virtualY - b.x2) (4 * b.y1)
        (fun i j k => shadow
          ((b.y1 + (j : Int)) * pCir.ShadowPitch +
            (4 * (b.x2 - 1 - (i : Int)) + (k : Int)))) := by
  have hsp : -pCir.rotate * pCir.ShadowPitch / 4 = s := by
    rw [hrot, hs]
    omega
  simp only [cirRefreshArea32Box, gridTrace, read32]
  simp only [hsp]
  simp only [hrot, hs]
  norm_num
  congr 1
  funext i
  congr 1
  funext j
  rw [store32writes_eq _ _ _ _ _ _ (hsh _) (hsh _) (hsh _) (hsh _)
    (pack4_eq _ _ _ _ (hsh _) (hsh _) (hsh _) (hsh _))]
  rw [show List.range 4 = [0, 1, 2, 3] from rfl]
  simp only [List.map]
  simp only [List.cons.injEq, Prod.mk.injEq, and_true]
  refine ⟨⟨?_, ?_⟩, ⟨?_, ?_⟩, ⟨?_, ?_⟩, ?_, ?_⟩ <;>
    first
      | (push_cast; ring)
      | (congr 1; push_cast; ring)

/-! ### C2: stores stay inside the framebuffer extents -/

/-- Byte offset `a` lies inside a framebuffer of `virtualY` rows with
byte pitch `rowBytes` and `widthBytes` visible bytes per row. -/
def InFB (virtualY rowBytes widthBytes a : Int) : Prop :=
  ∃ row col : Int, a = row * rowBytes + col ∧ 0 ≤ row ∧ row < virtualY ∧
    0 ≤ col ∧ col < widthBytes

/-- C2 (amended): under the caller contract every store of every
refresh routine falls inside the declared framebuffer extents — the
unrotated copier and the 32 bpp blitter unconditionally, the 16 bpp
blitter provided the transposed width `virtualX` is a multiple of its
packing group 2, and the 8/24 bpp blitters provided it is a multiple
of their packing group 4. -/
theorem stores_in_bounds (pScrn : ScrnRec) (pCir : CirRec) (shadow : Mem)
    (hrot : pCir.rotate = 1 ∨ pCir.rotate = -1)
    (hbpp : pScrn.bitsPerPixel = 8 ∨ pScrn.bitsPerPixel = 16 ∨
      pScrn.bitsPerPixel = 24 ∨ pScrn.bitsPerPixel = 32)
    (hdw : pScrn.virtualX ≤ pScrn.displayWidth) :
    (∀ b : Box, 0 ≤ b.x1 → b.x2 ≤ pScrn.virtualX → 0 ≤ b.y1 →
      b.y2 ≤ pScrn.virtualY →
      ∀ w ∈ cirRefreshArea pScrn pCir shadow [b],
        InFB pScrn.virtualY
          (BitmapBytePad (pScrn.displayWidth * pScrn.bitsPerPixel))
          (pScrn.virtualX * (pScrn.bitsPerPixel / 8)) w.1) ∧
    (∀ b : Box, 0 ≤ b.x1 → b.x2 ≤ pScrn.virtualY → 0 ≤ b.y1 →
      b.y2 ≤ pScrn.virtualX →
      ((4 : Int) ∣ pScrn.virtualX →
        ∀ w ∈ cirRefreshArea8 pScrn pCir shadow [b],
          InFB pScrn.virtualY pScrn.displayWidth pScrn.virtualX w.1) ∧
      ((2 : Int) ∣ pScrn.virtualX →
        ∀ w ∈ cirRefreshArea16 pScrn pCir shadow [b],
          InFB pScrn.virtualY (2 * pScrn.displayWidth)
            (pScrn.virtualX * 2) w.1) ∧
      ((4 : Int) ∣ pScrn.virtualX →
        ∀ w ∈ cirRefreshArea24 pScrn pCir shadow [b],
          InFB pScrn.virtualY (BitmapBytePad (pScrn.displayWidth * 24))
            (pScrn.virtualX * 3) w.1) ∧
      (∀ w ∈ cirRefreshArea32 pScrn pCir shadow [b],
        InFB pScrn.virtualY (4 * pScrn.displayWidth)
          (pScrn.virtualX * 4) w.1)) := by
  constructor
  · intro b hx1 hx2 hy1 hy2 w hw
    rw [cirRefreshArea_singleton] at hw
    simp only [cirRefreshAreaBox, List.mem_flatMap, List.mem_map,
      List.mem_range] at hw
    obtain ⟨r, hr, k, hk, rfl⟩ := hw
    have hW : (b.x2 - b.x1) * (pScrn.bitsPerPixel / 8) =
        b.x2 * (pScrn.bitsPerPixel / 8) - b.x1 * (pScrn.bitsPerPixel / 8) := by
      ring
    rw [hW] at hk
    have hB : 0 ≤ pScrn.bitsPerPixel / 8 := by omega
    have hp0 : 0 ≤ b.x1 * (pScrn.bitsPerPixel / 8) := mul_nonneg hx1 hB
    have hq : b.x2 * (pScrn.bitsPerPixel / 8) ≤
        pScrn.virtualX * (pScrn.bitsPerPixel / 8) :=
      mul_le_mul_of_nonneg_right hx2 hB
    refine ⟨b.y1 + (r : Int), b.x1 * (pScrn.bitsPerPixel / 8) + (k : Int),
      by dsimp only; ring, by omega, by omega, by omega, by omega⟩
  · intro b hx1 hx2 hy1 hy2
    refine ⟨?_, ?_, ?_, ?_⟩
    · intro hvx w hw
      rw [cirRefreshArea8_singleton] at hw
      simp only [cirRefreshArea8Box, store32writes, List.mem_flatMap,
        List.mem_map, List.mem_range] at hw
      obtain ⟨i, hi, j, hj, k, hk, rfl⟩ := hw
      rcases hrot with h | h <;> simp only [h] <;> norm_num
      · exact ⟨b.x1 + (i : Int),
          pScrn.virtualX - ((b.y2 + 3) - (b.y2 + 3) % 4) + 4 * (j : Int) +
            (k : Int),
          by push_cast; ring, by omega, by omega, by omega, by omega⟩
      · exact ⟨pScrn.virtualY - b.x2 + (i : Int),
          b.y1 - b.y1 % 4 + 4 * (j : Int) + (k : Int),
          by push_cast; ring, by omega, by omega, by omega, by omega⟩
    · intro hvx w hw
      rw [cirRefreshArea16_singleton] at hw
      simp only [cirRefreshArea16Box, store32writes, List.mem_flatMap,
        List.mem_map, List.mem_range] at hw
      obtain ⟨i, hi, j, hj, k, hk, rfl⟩ := hw
      rcases hrot with h | h <;> simp only [h] <;> norm_num
      · exact ⟨b.x1 + (i : Int),
          2 * (pScrn.virtualX - ((b.y2 + 1) - (b.y2 + 1) % 2)) +
            4 * (j : Int) + (k : Int),
          by push_cast; ring, by omega, by omega, by omega, by omega⟩
      · exact ⟨pScrn.virtualY - b.x2 + (i : Int),
          2 * (b.y1 - b.y1 % 2) + 4 * (j : Int) + (k : Int),
          by push_cast; ring, by omega, by omega, by omega, by omega⟩
    · intro hvx w hw
      rw [cirRefreshArea24_singleton] at hw
      simp only [cirRefreshArea24Box, store32writes, List.mem_flatMap,
        List.mem_map, List.mem_range, List.mem_append] at hw
      obtain ⟨i, hi, j, hj, hw⟩ := hw
      rcases hw with (⟨k, hk, rfl⟩ | ⟨k, hk, rfl⟩) | ⟨k, hk, rfl⟩ <;>
        rcases hrot with h | h <;> simp only [h] <;> norm_num
      · exact ⟨b.x1 + (i : Int),
          (pScrn.virtualX - ((b.y2 + 3) - (b.y2 + 3) % 4)) * 3 +
            12 * (j : Int) + (k : Int),
          by push_cast; ring, by omega, by omega, by omega, by omega⟩
      · exact ⟨pScrn.virtualY - b.x2 + (i : Int),
          (b.y1 - b.y1 % 4) * 3 + 12 * (j : Int) + (k : Int),
          by push_cast; ring, by omega, by omega, by omega, by omega⟩
      · exact ⟨b.x1 + (i : Int),
          (pScrn.virtualX - ((b.y2 + 3) - (b.y2 + 3) % 4)) * 3 +
            12 * (j : Int) + 4 + (k : Int),
          by push_cast; ring, by omega, by omega, by omega, by omega⟩
      · exact ⟨pScrn.virtualY - b.x2 + (i : Int),
          (b.y1 - b.y1 % 4) * 3 + 12 * (j : Int) + 4 + (k : Int),
          by push_cast; ring, by omega, by omega, by omega, by omega⟩
      · exact ⟨b.x1 + (i : Int),
          (pScrn.virtualX - ((b.y2 + 3) - (b.y2 + 3) % 4)) * 3 +
            12 * (j : Int) + 8 + (k : Int),
          by push_cast; ring, by omega, by omega, by omega, by omega⟩
      · exact ⟨pScrn.virtualY - b.x2 + (i : Int),
          (b.y1 - b.y1 % 4) * 3 + 12 * (j : Int) + 8 + (k : Int),
          by push_cast; ring, by omega, by omega, by omega, by omega⟩
    · intro w hw
      rw [cirRefreshArea32_singleton] at hw
      simp only [cirRefreshArea32Box, store32writes, List.mem_flatMap,
        List.mem_map, List.mem_range] at hw
      obtain ⟨i, hi, j, hj, k, hk, rfl⟩ := hw
      rcases hrot with h | h <;> simp only [h] <;> norm_num
      · exact ⟨b.x1 + (i : Int),
          4 * (pScrn.virtualX - b.y2) + 4 * (j : Int) + (k : Int),
          by push_cast; ring, by omega, by omega, by omega, by omega⟩
      · exact ⟨pScrn.virtualY - b.x2 + (i : Int),
          4 * b.y1 + 4 * (j : Int) + (k : Int),
          by push_cast; ring, by omega, by omega, by omega, by omega⟩

/-- C2 counterexample: under the unamended contract (no divisibility
assumption on the transposed width), the 8 bpp blitter of an edge
box stores at negative offsets, before the framebuffer base: shadow
4 wide, 2 high (pitch 4), framebuffer 2 wide (`virtualX = 2`, not a
multiple of 4), 4 high, box `(0,0)-(1,2)`. -/
theorem stores_in_bounds_counterexample :
    ∃ w ∈ cirRefreshArea8 ⟨8, 2, 2, 4⟩ ⟨4, 1⟩ shTest [⟨0, 0, 1, 2⟩],
      w.1 < 0 := by decide

/-- Witness for C2 at an aligned 4x4 configuration: the first store of
the 8 bpp blitter for the full box lands inside the extents. -/
theorem stores_in_bounds_witness : InFB 4 4 4 0 :=
  ((stores_in_bounds ⟨8, 4, 4, 4⟩ ⟨4, 1⟩ shTest (Or.inl rfl) (Or.inl rfl)
      (by decide)).2 ⟨0, 0, 4, 4⟩ (by decide) (by decide) (by decide)
    (by decide)).1 (by decide) ((0 : Int), (0 : Nat)) (by decide)

/-! ### C6: packed stores equal an unrolled per-pixel reference copy -/

/-- Modelled from the spec: the unrolled per-pixel reference copy for
one packed 8 bpp store — four vertically-adjacent shadow samples
(stride `srcPitch`) written one byte at a time to four consecutive
destination bytes. -/
def refStore8 (shadow : Mem) (srcPitch s a : Int) : List (Int × Nat) :=
  [(a, shadow s), (a + 1, shadow (s + srcPitch)),
   (a + 2, shadow (s + srcPitch * 2)), (a + 3, shadow (s + srcPitch * 3))]

/-- Modelled from the spec: the unrolled per-pixel reference copy for
one packed 16 bpp store — two vertically-adjacent 16-bit pixels
(element stride `srcPitch`) written byte by byte. -/
def refStore16 (shadow : Mem) (srcPitch s a : Int) : List (Int × Nat) :=
  [(a, shadow (2 * s)), (a + 1, shadow (2 * s + 1)),
   (a + 2, shadow (2 * (s + srcPitch))), (a + 3, shadow (2 * (s + srcPitch) + 1))]

/-- Modelled from the spec: the unrolled per-pixel reference copy for
one packed 24 bpp block — four vertically-adjacent 3-byte pixels
(byte stride `srcPitch`) written byte by byte to twelve consecutive
destination bytes. -/
def refStore24 (shadow : Mem) (srcPitch s a : Int) : List (Int × Nat) :=
  [(a, shadow s), (a + 1, shadow (s + 1)), (a + 2, shadow (s + 2)),
   (a + 3, shadow (s + srcPitch)), (a + 4, shadow (s + srcPitch + 1)),
   (a + 5, shadow (s + srcPitch + 2)), (a + 6, shadow (s + srcPitch * 2)),
   (a + 7, shadow (s + srcPitch * 2 + 1)), (a + 8, shadow (s + srcPitch * 2 + 2)),
   (a + 9, shadow (s + srcPitch * 3)), (a + 10, shadow (s + srcPitch * 3 + 1)),
   (a + 11, shadow (s + srcPitch * 3 + 2))]

/-- C6: for every shadow contents (hence exhaustively over all 256
byte values at 8 bpp), the bytes emitted by the packed native-width
stores of the 8, 16 and 24 bpp paths are exactly the bytes the
unrolled per-pixel reference copy of the same transposed pixels would
write. -/
theorem packed_store_matches_reference (shadow : Mem) (srcPitch s a : Int)
    (hsh : ∀ p : Int, shadow p < 256) :
    store32writes a (pack4 (shadow s) (shadow (s + srcPitch))
        (shadow (s + srcPitch * 2)) (shadow (s + srcPitch * 3))) =
      refStore8 shadow srcPitch s a ∧
    store32writes a (pack2x16 (read16 shadow s) (read16 shadow (s + srcPitch))) =
      refStore16 shadow srcPitch s a ∧
    store32writes a (pack4 (shadow s) (shadow (s + 1)) (shadow (s + 2))
        (shadow (s + srcPitch))) ++
      store32writes (a + 4) (pack4 (shadow (s + srcPitch + 1))
        (shadow (s + srcPitch + 2)) (shadow (s + srcPitch * 2))
        (shadow (s + srcPitch * 2 + 1))) ++
      store32writes (a + 8) (pack4 (shadow (s + srcPitch * 2 + 2))
        (shadow (s + srcPitch * 3)) (shadow (s + srcPitch * 3 + 1))
        (shadow (s + srcPitch * 3 + 2))) =
      refStore24 shadow srcPitch s a := by
  refine ⟨?_, ?_, ?_⟩
  · rw [store32writes_eq _ _ _ _ _ _ (hsh _) (hsh _) (hsh _) (hsh _)
      (pack4_eq _ _ _ _ (hsh _) (hsh _) (hsh _) (hsh _))]
    rfl
  · rw [store32writes_eq _ _ _ _ _ _ (hsh _) (hsh _) (hsh _) (hsh _)
      (pack2x16_read16 shadow _ _ (hsh _) (hsh _) (hsh _) (hsh _))]
    rfl
  · rw [store32writes_eq _ _ _ _ _ _ (hsh _) (hsh _) (hsh _) (hsh _)
        (pack4_eq _ _ _ _ (hsh _) (hsh _) (hsh _) (hsh _)),
      store32writes_eq _ _ _ _ _ _ (hsh _) (hsh _) (hsh _) (hsh _)
        (pack4_eq _ _ _ _ (hsh _) (hsh _) (hsh _) (hsh _)),
      store32writes_eq _ _ _ _ _ _ (hsh _) (hsh _) (hsh _) (hsh _)
        (pack4_eq _ _ _ _ (hsh _) (hsh _) (hsh _) (hsh _))]
    simp only [List.cons_append, List.nil_append, refStore24]
    norm_num
    refine ⟨?_, ?_, ?_, ?_, ?_, ?_⟩ <;> ring

/-- Witness for C6: the 8 bpp packed store over the concrete fixture
equals its reference copy. -/
theorem packed_store_matches_reference_witness :
    store32writes 0 (pack4 (shTest 0) (shTest (0 + 1)) (shTest (0 + 1 * 2))
        (shTest (0 + 1 * 3))) = refStore8 shTest 1 0 0 :=
  (packed_store_matches_reference shTest 1 0 0 shTest_lt256).1

/-- Witness for C3: one byte of a concrete unrotated refresh. -/
theorem cirRefreshArea_correct_witness :
    applyWrites (cirRefreshArea ⟨8, 4, 4, 4⟩ ⟨4, 1⟩ shTest [⟨0, 0, 4, 4⟩]) mem0
        (0 * BitmapBytePad (4 * 8) + 1) = shTest (0 * 4 + 1) :=
  (cirRefreshArea_correct ⟨8, 4, 4, 4⟩ ⟨4, 1⟩ shTest mem0 ⟨0, 0, 4, 4⟩
      (Or.inl rfl) (by decide) (by decide)).2 0 1 (by decide) (by decide)
    (by decide) (by decide)

/-- Witness for C5: a concrete 8 bpp read decomposes into an expanded
row and an in-box column. -/
theorem rotating_blitter_alignment_witness :
    ∃ row col : Int, (12 : Int) = row * 4 + col ∧
      (0 : Int) - (0 : Int) % 4 ≤ row ∧
      row < ((1 : Int) + 3) - ((1 : Int) + 3) % 4 ∧
      (0 : Int) ≤ col ∧ col < 1 :=
  (rotating_blitter_alignment ⟨4, 1⟩ ⟨0, 0, 1, 1⟩ (Or.inl rfl) (by decide)
      (by decide)).2.2.1 12 (by decide)

/-- Evaluate a replayed grid at destination row `r`, byte column `c`. -/
theorem applyWrites_gridTrace_at (W H K : Nat) (D A B : Int)
    (val : Nat → Nat → Nat → Nat) (fb : Mem)
    (hB : 0 ≤ B) (hBK : B + (K : Int) * (H : Int) ≤ D)
    (r c : Int) (hr1 : A ≤ r) (hr2 : r < A + (W : Int))
    (hc1 : B ≤ c) (hc2 : c < B + (K : Int) * (H : Int)) :
    applyWrites (gridTrace W H K D A B val) fb (r * D + c) =
      val (r - A).toNat (((c - B) / (K : Int)).toNat)
        (((c - B) % (K : Int)).toNat) := by
  have hK : 0 < K := by
    rcases Nat.eq_zero_or_pos K with h | h
    · subst h
      simp at hc1 hc2
      omega
    · exact h
  have hKi : (0 : Int) < (K : Int) := by exact_mod_cast hK
  have hH : 0 < H := by
    rcases Nat.eq_zero_or_pos H with h | h
    · subst h
      simp at hc1 hc2
      omega
    · exact h
  have hq0 : 0 ≤ (c - B) / (K : Int) := Int.ediv_nonneg (by omega) (by omega)
  have hm0 : 0 ≤ (c - B) % (K : Int) := Int.emod_nonneg _ (by omega)
  have hdm := Int.ediv_add_emod (c - B) (K : Int)
  have hqH : (c - B) / (K : Int) < (H : Int) := by
    rw [Int.ediv_lt_iff_lt_mul hKi]
    have : (H : Int) * (K : Int) = (K : Int) * (H : Int) := by ring
    omega
  have hmK : (c - B) % (K : Int) < (K : Int) := Int.emod_lt_of_pos _ hKi
  have e1 : (((r - A).toNat : Nat) : Int) = r - A := Int.toNat_of_nonneg (by omega)
  have e2 : ((((c - B) / (K : Int)).toNat : Nat) : Int) = (c - B) / (K : Int) :=
    Int.toNat_of_nonneg hq0
  have e3 : ((((c - B) % (K : Int)).toNat : Nat) : Int) = (c - B) % (K : Int) :=
    Int.toNat_of_nonneg hm0
  have haddr : r * D + c =
      (A + (((r - A).toNat : Nat) : Int)) * D +
        (B + ((K : Int) * ((((c - B) / (K : Int)).toNat : Nat) : Int) +
          ((((c - B) % (K : Int)).toNat : Nat) : Int))) := by
    rw [e1, e2, e3]
    linear_combination -hdm
  rw [haddr]
  exact applyWrites_gridTrace W H K D A B val fb hB hBK _ _ _
    (by omega) (by omega) (by omega)

/-! ### Pointwise characterization of the rotating blits -/

/-- After the 8 bpp blit with rotation 1, framebuffer byte `(r, c)`
holds shadow byte `(virtualX - 1 - c, r)`, for `(r, c)` in the blitted
region. -/
theorem applyW8_rot90 (pScrn : ScrnRec) (S : Int) (shadow fb : Mem) (b : Box)
    (hsh : ∀ p : Int, shadow p < 256) (hy1 : 0 ≤ b.y1)
    (hfit : (b.y2 + 3) - (b.y2 + 3) % 4 ≤ pScrn.virtualX)
    (hdw : pScrn.virtualX ≤ pScrn.displayWidth)
    (r c : Int) (hr1 : b.x1 ≤ r) (hr2 : r < b.x2)
    (hc1 : pScrn.virtualX - ((b.y2 + 3) - (b.y2 + 3) % 4) ≤ c)
    (hc2 : c < pScrn.virtualX - (b.y1 - b.y1 % 4)) :
    applyWrites (cirRefreshArea8 pScrn ⟨S, 1⟩ shadow [b]) fb
        (r * pScrn.displayWidth + c) =
      shadow ((pScrn.virtualX - 1 - c) * S + r) := by
  rw [cirRefreshArea8_singleton,
    cirRefreshArea8Box_grid90 pScrn ⟨S, 1⟩ shadow b rfl hsh]
  rw [applyWrites_gridTrace_at _ _ _ _ _ _ _ _ (by omega) (by push_cast; omega)
    r c (by omega) (by push_cast; omega) (by omega) (by push_cast; omega)]
  congr 1
  set T := c - (pScrn.virtualX - ((b.y2 + 3) - (b.y2 + 3) % 4)) with hT
  have e1 : (((r - b.x1).toNat : Nat) : Int) = r - b.x1 :=
    Int.toNat_of_nonneg (by omega)
  have e2 : (((T / ((4 : Nat) : Int)).toNat : Nat) : Int) = T / ((4 : Nat) : Int) :=
    Int.toNat_of_nonneg (Int.ediv_nonneg (by omega) (by positivity))
  have e3 : (((T % ((4 : Nat) : Int)).toNat : Nat) : Int) = T % ((4 : Nat) : Int) :=
    Int.toNat_of_nonneg (Int.emod_nonneg _ (by positivity))
  rw [e1, e2, e3]
  have hP : ((b.y2 + 3) - (b.y2 + 3) % 4) - 1 -
      (4 * (T / ((4 : Nat) : Int)) + T % ((4 : Nat) : Int)) =
      pScrn.virtualX - 1 - c := by
    push_cast
    omega
  linear_combination S * hP

/-- After the 8 bpp blit with rotation -1, framebuffer byte `(r, c)`
holds shadow byte `(c, virtualY - 1 - r)`, for `(r, c)` in the blitted
region. -/
theorem applyW8_rot270 (pScrn : ScrnRec) (S : Int) (shadow fb : Mem) (b : Box)
    (hsh : ∀ p : Int, shadow p < 256) (hy1 : 0 ≤ b.y1)
    (hfit : (b.y2 + 3) - (b.y2 + 3) % 4 ≤ pScrn.virtualX)
    (hdw : pScrn.virtualX ≤ pScrn.displayWidth)
    (r c : Int) (hr1 : pScrn.virtualY - b.x2 ≤ r) (hr2 : r < pScrn.virtualY - b.x1)
    (hc1 : b.y1 - b.y1 % 4 ≤ c) (hc2 : c < (b.y2 + 3) - (b.y2 + 3) % 4) :
    applyWrites (cirRefreshArea8 pScrn ⟨S, -1⟩ shadow [b]) fb
        (r * pScrn.displayWidth + c) =
      shadow (c * S + (pScrn.virtualY - 1 - r)) := by
  rw [cirRefreshArea8_singleton,
    cirRefreshArea8Box_grid270 pScrn ⟨S, -1⟩ shadow b rfl hsh]
  rw [applyWrites_gridTrace_at _ _ _ _ _ _ _ _ (by omega) (by push_cast; omega)
    r c (by omega) (by push_cast; omega) (by omega) (by push_cast; omega)]
  congr 1
  set T := c - (b.y1 - b.y1 % 4) with hT
  have e1 : (((r - (pScrn.virtualY - b.x2)).toNat : Nat) : Int) =
      r - (pScrn.virtualY - b.x2) := Int.toNat_of_nonneg (by omega)
  have e2 : (((T / ((4 : Nat) : Int)).toNat : Nat) : Int) = T / ((4 : Nat) : Int) :=
    Int.toNat_of_nonneg (Int.ediv_nonneg (by omega) (by positivity))
  have e3 : (((T % ((4 : Nat) : Int)).toNat : Nat) : Int) = T % ((4 : Nat) : Int) :=
    Int.toNat_of_nonneg (Int.emod_nonneg _ (by positivity))
  rw [e1, e2, e3]
  have hP : b.y1 - b.y1 % 4 +
      (4 * (T / ((4 : Nat) : Int)) + T % ((4 : Nat) : Int)) = c := by
    push_cast
    omega
  have hQ : b.x2 - 1 - (r - (pScrn.virtualY - b.x2)) =
      pScrn.virtualY - 1 - r := by omega
  linear_combination S * hP + hQ

/-- After the 16 bpp blit with rotation 1 (even `ShadowPitch`),
framebuffer pixel `(r, cp)` byte `u` holds shadow pixel
`(virtualX - 1 - cp, r)` byte `u`. -/
theorem applyW16_rot90 (pScrn : ScrnRec) (S : Int) (shadow fb : Mem) (b : Box)
    (hsh : ∀ p : Int, shadow p < 256) (hs2 : (2 : Int) ∣ S) (hy1 : 0 ≤ b.y1)
    (hfit : (b.y2 + 1) - (b.y2 + 1) % 2 ≤ pScrn.virtualX)
    (hdw : pScrn.virtualX ≤ pScrn.displayWidth)
    (r cp u : Int) (hr1 : b.x1 ≤ r) (hr2 : r < b.x2)
    (hc1 : pScrn.virtualX - ((b.y2 + 1) - (b.y2 + 1) % 2) ≤ cp)
    (hc2 : cp < pScrn.virtualX - (b.y1 - b.y1 % 2))
    (hu1 : 0 ≤ u) (hu2 : u < 2) :
    applyWrites (cirRefreshArea16 pScrn ⟨S, 1⟩ shadow [b]) fb
        (r * (2 * pScrn.displayWidth) + (2 * cp + u)) =
      shadow ((pScrn.virtualX - 1 - cp) * S + (2 * r + u)) := by
  obtain ⟨s, hs⟩ := hs2
  rw [cirRefreshArea16_singleton,
    cirRefreshArea16Box_grid90 pScrn ⟨S, 1⟩ shadow b rfl hsh s hs]
  rw [applyWrites_gridTrace_at _ _ _ _ _ _ _ _ (by omega) (by push_cast; omega)
    r (2 * cp + u) (by omega) (by push_cast; omega) (by omega)
    (by push_cast; omega)]
  congr 1
  set T := 2 * cp + u -
    2 * (pScrn.virtualX - ((b.y2 + 1) - (b.y2 + 1) % 2)) with hT
  have e1 : (((r - b.x1).toNat : Nat) : Int) = r - b.x1 :=
    Int.toNat_of_nonneg (by omega)
  have e2 : (((T / ((4 : Nat) : Int)).toNat : Nat) : Int) = T / ((4 : Nat) : Int) :=
    Int.toNat_of_nonneg (Int.ediv_nonneg (by omega) (by positivity))
  have e4 : ((((T % ((4 : Nat) : Int)).toNat / 2 : Nat) : Nat) : Int) =
      T % ((4 : Nat) : Int) / 2 := by
    push_cast
    omega
  have e5 : ((((T % ((4 : Nat) : Int)).toNat % 2 : Nat) : Nat) : Int) =
      T % ((4 : Nat) : Int) % 2 := by
    push_cast
    omega
  rw [e1, e2, e4, e5]
  have hP : ((b.y2 + 1) - (b.y2 + 1) % 2) - 1 -
      (2 * (T / ((4 : Nat) : Int)) + T % ((4 : Nat) : Int) / 2) =
      pScrn.virtualX - 1 - cp := by
    push_cast
    omega
  have hQ : 2 * (b.x1 + (r - b.x1)) + T % ((4 : Nat) : Int) % 2 = 2 * r + u := by
    push_cast
    omega
  linear_combination S * hP + hQ

/-- After the 16 bpp blit with rotation -1 (even `ShadowPitch`),
framebuffer pixel `(r, cp)` byte `u` holds shadow pixel
`(cp, virtualY - 1 - r)` byte `u`. -/
theorem applyW16_rot270 (pScrn : ScrnRec) (S : Int) (shadow fb : Mem) (b : Box)
    (hsh : ∀ p : Int, shadow p < 256) (hs2 : (2 : Int) ∣ S) (hy1 : 0 ≤ b.y1)
    (hfit : (b.y2 + 1) - (b.y2 + 1) % 2 ≤ pScrn.virtualX)
    (hdw : pScrn.virtualX ≤ pScrn.displayWidth)
    (r cp u : Int) (hr1 : pScrn.virtualY - b.x2 ≤ r)
    (hr2 : r < pScrn.virtualY - b.x1)
    (hc1 : b.y1 - b.y1 % 2 ≤ cp) (hc2 : cp < (b.y2 + 1) - (b.y2 + 1) % 2)
    (hu1 : 0 ≤ u) (hu2 : u < 2) :
    applyWrites (cirRefreshArea16 pScrn ⟨S, -1⟩ shadow [b]) fb
        (r * (2 * pScrn.displayWidth) + (2 * cp + u)) =
      shadow (cp * S + (2 * (pScrn.virtualY - 1 - r) + u)) := by
  obtain ⟨s, hs⟩ := hs2
  rw [cirRefreshArea16_singleton,
    cirRefreshArea16Box_grid270 pScrn ⟨S, -1⟩ shadow b rfl hsh s hs]
  rw [applyWrites_gridTrace_at _ _ _ _ _ _ _ _ (by omega) (by push_cast; omega)
    r (2 * cp + u) (by omega) (by push_cast; omega) (by omega)
    (by push_cast; omega)]
  congr 1
  set T := 2 * cp + u - 2 * (b.y1 - b.y1 % 2) with hT
  have e1 : (((r - (pScrn.virtualY - b.x2)).toNat : Nat) : Int) =
      r - (pScrn.virtualY - b.x2) := Int.toNat_of_nonneg (by omega)
  have e2 : (((T / ((4 : Nat) : Int)).toNat : Nat) : Int) = T / ((4 : Nat) : Int) :=
    Int.toNat_of_nonneg (Int.ediv_nonneg (by omega) (by positivity))
  have e4 : ((((T % ((4 : Nat) : Int)).toNat / 2 : Nat) : Nat) : Int) =
      T % ((4 : Nat) : Int) / 2 := by
    push_cast
    omega
  have e5 : ((((T % ((4 : Nat) : Int)).toNat % 2 : Nat) : Nat) : Int) =
      T % ((4 : Nat) : Int) % 2 := by
    push_cast
    omega
  rw [e1, e2, e4, e5]
  have hP : b.y1 - b.y1 % 2 +
      (2 * (T / ((4 : Nat) : Int)) + T % ((4 : Nat) : Int) / 2) = cp := by
    push_cast
    omega
  have hQ : 2 * (b.x2 - 1 - (r - (pScrn.virtualY - b.x2))) +
      T % ((4 : Nat) : Int) % 2 = 2 * (pScrn.virtualY - 1 - r) + u := by
    push_cast
    omega
  linear_combination S * hP + hQ

/-- After the 24 bpp blit with rotation 1, framebuffer pixel `(r, cp)`
byte `u` holds shadow pixel `(virtualX - 1 - cp, r)` byte `u`. -/
theorem applyW24_rot90 (pScrn : ScrnRec) (S : Int) (shadow fb : Mem) (b : Box)
    (hsh : ∀ p : Int, shadow p < 256) (hy1 : 0 ≤ b.y1)
    (hfit : (b.y2 + 3) - (b.y2 + 3) % 4 ≤ pScrn.virtualX)
    (hdw : pScrn.virtualX ≤ pScrn.displayWidth)
    (r cp u : Int) (hr1 : b.x1 ≤ r) (hr2 : r < b.x2)
    (hc1 : pScrn.virtualX - ((b.y2 + 3) - (b.y2 + 3) % 4) ≤ cp)
    (hc2 : cp < pScrn.virtualX - (b.y1 - b.y1 % 4))
    (hu1 : 0 ≤ u) (hu2 : u < 3) :
    applyWrites (cirRefreshArea24 pScrn ⟨S, 1⟩ shadow [b]) fb
        (r * BitmapBytePad (pScrn.displayWidth * 24) + (3 * cp + u)) =
      shadow ((pScrn.virtualX - 1 - cp) * S + (3 * r + u)) := by
  have hd24 : 3 * pScrn.displayWidth ≤ BitmapBytePad (pScrn.displayWidth * 24) := by
    unfold BitmapBytePad
    omega
  rw [cirRefreshArea24_singleton,
    cirRefreshArea24Box_grid90 pScrn ⟨S, 1⟩ shadow b rfl hsh]
  rw [applyWrites_gridTrace_at _ _ _ _ _ _ _ _ (by omega) (by push_cast; omega)
    r (3 * cp + u) (by omega) (by push_cast; omega) (by omega)
    (by push_cast; omega)]
  congr 1
  set T := 3 * cp + u -
    3 * (pScrn.virtualX - ((b.y2 + 3) - (b.y2 + 3) % 4)) with hT
  have e1 : (((r - b.x1).toNat : Nat) : Int) = r - b.x1 :=
    Int.toNat_of_nonneg (by omega)
  have e2 : (((T / ((12 : Nat) : Int)).toNat : Nat) : Int) =
      T / ((12 : Nat) : Int) :=
    Int.toNat_of_nonneg (Int.ediv_nonneg (by omega) (by positivity))
  have e4 : ((((T % ((12 : Nat) : Int)).toNat / 3 : Nat) : Nat) : Int) =
      T % ((12 : Nat) : Int) / 3 := by
    push_cast
    omega
  have e5 : ((((T % ((12 : Nat) : Int)).toNat % 3 : Nat) : Nat) : Int) =
      T % ((12 : Nat) : Int) % 3 := by
    push_cast
    omega
  rw [e1, e2, e4, e5]
  have hP : ((b.y2 + 3) - (b.y2 + 3) % 4) - 1 -
      (4 * (T / ((12 : Nat) : Int)) + T % ((12 : Nat) : Int) / 3) =
      pScrn.virtualX - 1 - cp := by
    push_cast
    omega
  have hQ : 3 * (b.x1 + (r - b.x1)) + T % ((12 : Nat) : Int) % 3 = 3 * r + u := by
    push_cast
    omega
  linear_combination S * hP + hQ

/-- After the 24 bpp blit with rotation -1, framebuffer pixel `(r, cp)`
byte `u` holds shadow pixel `(cp, virtualY - 1 - r)` byte `u`. -/
theorem applyW24_rot270 (pScrn : ScrnRec) (S : Int) (shadow fb : Mem) (b : Box)
    (hsh : ∀ p : Int, shadow p < 256) (hy1 : 0 ≤ b.y1)
    (hfit : (b.y2 + 3) - (b.y2 + 3) % 4 ≤ pScrn.virtualX)
    (hdw : pScrn.virtualX ≤ pScrn.displayWidth)
    (r cp u : Int) (hr1 : pScrn.virtualY - b.x2 ≤ r)
    (hr2 : r < pScrn.virtualY - b.x1)
    (hc1 : b.y1 - b.y1 % 4 ≤ cp) (hc2 : cp < (b.y2 + 3) - (b.y2 + 3) % 4)
    (hu1 : 0 ≤ u) (hu2 : u < 3) :
    applyWrites (cirRefreshArea24 pScrn ⟨S, -1⟩ shadow [b]) fb
        (r * BitmapBytePad (pScrn.displayWidth * 24) + (3 * cp + u)) =
      shadow (cp * S + (3 * (pScrn.virtualY - 1 - r) + u)) := by
  have hd24 : 3 * pScrn.displayWidth ≤ BitmapBytePad (pScrn.displayWidth * 24) := by
    unfold BitmapBytePad
    omega
  rw [cirRefreshArea24_singleton,
    cirRefreshArea24Box_grid270 pScrn ⟨S, -1⟩ shadow b rfl hsh]
  rw [applyWrites_gridTrace_at _ _ _ _ _ _ _ _ (by omega) (by push_cast; omega)
    r (3 * cp + u) (by omega) (by push_cast; omega) (by omega)
    (by push_cast; omega)]
  congr 1
  set T := 3 * cp + u - 3 * (b.y1 - b.y1 % 4) with hT
  have e1 : (((r - (pScrn.virtualY - b.x2)).toNat : Nat) : Int) =
      r - (pScrn.virtualY - b.x2) := Int.toNat_of_nonneg (by omega)
  have e2 : (((T / ((12 : Nat) : Int)).toNat : Nat) : Int) =
      T / ((12 : Nat) : Int) :=
    Int.toNat_of_nonneg (Int.ediv_nonneg (by omega) (by positivity))
  have e4 : ((((T % ((12 : Nat) : Int)).toNat / 3 : Nat) : Nat) : Int) =
      T % ((12 : Nat) : Int) / 3 := by
    push_cast
    omega
  have e5 : ((((T % ((12 : Nat) : Int)).toNat % 3 : Nat) : Nat) : Int) =
      T % ((12 : Nat) : Int) % 3 := by
    push_cast
    omega
  rw [e1, e2, e4, e5]
  have hP : b.y1 - b.y1 % 4 +
      (4 * (T / ((12 : Nat) : Int)) + T % ((12 : Nat) : Int) / 3) = cp := by
    push_cast
    omega
  have hQ : 3 * (b.x2 - 1 - (r - (pScrn.virtualY - b.x2))) +
      T % ((12 : Nat) : Int) % 3 = 3 * (pScrn.virtualY - 1 - r) + u := by
    push_cast
    omega
  linear_combination S * hP + hQ

/-- After the 32 bpp blit with rotation 1 (`ShadowPitch` a multiple of
4), framebuffer pixel `(r, cp)` byte `u` holds shadow pixel
`(virtualX - 1 - cp, r)` byte `u`. -/
theorem applyW32_rot90 (pScrn : ScrnRec) (S : Int) (shadow fb : Mem) (b : Box)
    (hsh : ∀ p : Int, shadow p < 256) (hs4 : (4 : Int) ∣ S) (hy1 : 0 ≤ b.y1)
    (hfit : b.y2 ≤ pScrn.virtualX)
    (hdw : pScrn.virtualX ≤ pScrn.displayWidth)
    (r cp u : Int) (hr1 : b.x1 ≤ r) (hr2 : r < b.x2)
    (hc1 : pScrn.virtualX - b.y2 ≤ cp) (hc2 : cp < pScrn.virtualX - b.y1)
    (hu1 : 0 ≤ u) (hu2 : u < 4) :
    applyWrites (cirRefreshArea32 pScrn ⟨S, 1⟩ shadow [b]) fb
        (r * (4 * pScrn.displayWidth) + (4 * cp + u)) =
      shadow ((pScrn.virtualX - 1 - cp) * S + (4 * r + u)) := by
  obtain ⟨s, hs⟩ := hs4
  rw [cirRefreshArea32_singleton,
    cirRefreshArea32Box_grid90 pScrn ⟨S, 1⟩ shadow b rfl hsh s hs]
  rw [applyWrites_gridTrace_at _ _ _ _ _ _ _ _ (by omega) (by push_cast; omega)
    r (4 * cp + u) (by omega) (by push_cast; omega) (by omega)
    (by push_cast; omega)]
  congr 1
  set T := 4 * cp + u - 4 * (pScrn.virtualX - b.y2) with hT
  have e1 : (((r - b.x1).toNat : Nat) : Int) = r - b.x1 :=
    Int.toNat_of_nonneg (by omega)
  have e2 : (((T / ((4 : Nat) : Int)).toNat : Nat) : Int) = T / ((4 : Nat) : Int) :=
    Int.toNat_of_nonneg (Int.ediv_nonneg (by omega) (by positivity))
  have e3 : (((T % ((4 : Nat) : Int)).toNat : Nat) : Int) = T % ((4 : Nat) : Int) :=
    Int.toNat_of_nonneg (Int.emod_nonneg _ (by positivity))
  rw [e1, e2, e3]
  have hP : b.y2 - 1 - T / ((4 : Nat) : Int) = pScrn.virtualX - 1 - cp := by
    push_cast
    omega
  have hQ : 4 * (b.x1 + (r - b.x1)) + T % ((4 : Nat) : Int) = 4 * r + u := by
    push_cast
    omega
  linear_combination S * hP + hQ

/-- After the 32 bpp blit with rotation -1 (`ShadowPitch` a multiple
of 4), framebuffer pixel `(r, cp)` byte `u` holds shadow pixel
`(cp, virtualY - 1 - r)` byte `u`. -/
theorem applyW32_rot270 (pScrn : ScrnRec) (S : Int) (shadow fb : Mem) (b : Box)
    (hsh : ∀ p : Int, shadow p < 256) (hs4 : (4 : Int) ∣ S) (hy1 : 0 ≤ b.y1)
    (hfit : b.y2 ≤ pScrn.virtualX)
    (hdw : pScrn.virtualX ≤ pScrn.displayWidth)
    (r cp u : Int) (hr1 : pScrn.virtualY - b.x2 ≤ r)
    (hr2 : r < pScrn.virtualY - b.x1)
    (hc1 : b.y1 ≤ cp) (hc2 : cp < b.y2)
    (hu1 : 0 ≤ u) (hu2 : u < 4) :
    applyWrites (cirRefreshArea32 pScrn ⟨S, -1⟩ shadow [b]) fb
        (r * (4 * pScrn.displayWidth) + (4 * cp + u)) =
      shadow (cp * S + (4 * (pScrn.virtualY - 1 - r) + u)) := by
  obtain ⟨s, hs⟩ := hs4
  rw [cirRefreshArea32_singleton,
    cirRefreshArea32Box_grid270 pScrn ⟨S, -1⟩ shadow b rfl hsh s hs]
  rw [applyWrites_gridTrace_at _ _ _ _ _ _ _ _ (by omega) (by push_cast; omega)
    r (4 * cp + u) (by omega) (by push_cast; omega) (by omega)
    (by push_cast; omega)]
  congr 1
  set T := 4 * cp + u - 4 * b.y1 with hT
  have e1 : (((r - (pScrn.virtualY - b.x2)).toNat : Nat) : Int) =
      r - (pScrn.virtualY - b.x2) := Int.toNat_of_nonneg (by omega)
  have e2 : (((T / ((4 : Nat) : Int)).toNat : Nat) : Int) = T / ((4 : Nat) : Int) :=
    Int.toNat_of_nonneg (Int.ediv_nonneg (by omega) (by positivity))
  have e3 : (((T % ((4 : Nat) : Int)).toNat : Nat) : Int) = T % ((4 : Nat) : Int) :=
    Int.toNat_of_nonneg (Int.emod_nonneg _ (by positivity))
  rw [e1, e2, e3]
  have hP : b.y1 + T / ((4 : Nat) : Int) = cp := by
    push_cast
    omega
  have hQ : 4 * (b.x2 - 1 - (r - (pScrn.virtualY - b.x2))) +
      T % ((4 : Nat) : Int) = 4 * (pScrn.virtualY - 1 - r) + u := by
    push_cast
    omega
  linear_combination S * hP + hQ

/-! ### C7: Rotate270 equals Rotate90 composed with a point reflection -/

/-- C7 (amended): for each bpp, on the region a box blits, the
framebuffer bytes produced by the rotation -1 blit equal the bytes the
rotation 1 blit of the same box puts at the point-reflected position
(through the center of the `virtualY x virtualX` buffer) — provided
that engine's own alignment-expanded row range still fits inside the
transposed width `virtualX`: rounded up to a multiple of 4 for
8/24 bpp, of 2 for 16 bpp, and the plain box bound at 32 bpp
(automatic when `virtualX` is a multiple of the engine's packing
group). -/
theorem rotate270_eq_rot90_reflected (pScrn : ScrnRec) (S : Int)
    (shadow fb fb' : Mem) (b : Box) (hsh : ∀ p : Int, shadow p < 256)
    (hy1 : 0 ≤ b.y1) (hdw : pScrn.virtualX ≤ pScrn.displayWidth) :
    ((b.y2 + 3) - (b.y2 + 3) % 4 ≤ pScrn.virtualX →
      ∀ r c : Int, pScrn.virtualY - b.x2 ≤ r → r < pScrn.virtualY - b.x1 →
      b.y1 - b.y1 % 4 ≤ c → c < (b.y2 + 3) - (b.y2 + 3) % 4 →
      applyWrites (cirRefreshArea8 pScrn ⟨S, -1⟩ shadow [b]) fb
          (r * pScrn.displayWidth + c) =
        applyWrites (cirRefreshArea8 pScrn ⟨S, 1⟩ shadow [b]) fb'
          ((pScrn.virtualY - 1 - r) * pScrn.displayWidth +
            (pScrn.virtualX - 1 - c))) ∧
    ((2 : Int) ∣ S → (b.y2 + 1) - (b.y2 + 1) % 2 ≤ pScrn.virtualX →
      ∀ r cp u : Int, pScrn.virtualY - b.x2 ≤ r → r < pScrn.virtualY - b.x1 →
      b.y1 - b.y1 % 2 ≤ cp → cp < (b.y2 + 1) - (b.y2 + 1) % 2 →
      0 ≤ u → u < 2 →
      applyWrites (cirRefreshArea16 pScrn ⟨S, -1⟩ shadow [b]) fb
          (r * (2 * pScrn.displayWidth) + (2 * cp + u)) =
        applyWrites (cirRefreshArea16 pScrn ⟨S, 1⟩ shadow [b]) fb'
          ((pScrn.virtualY - 1 - r) * (2 * pScrn.displayWidth) +
            (2 * (pScrn.virtualX - 1 - cp) + u))) ∧
    ((b.y2 + 3) - (b.y2 + 3) % 4 ≤ pScrn.virtualX →
      ∀ r cp u : Int, pScrn.virtualY - b.x2 ≤ r → r < pScrn.virtualY - b.x1 →
      b.y1 - b.y1 % 4 ≤ cp → cp < (b.y2 + 3) - (b.y2 + 3) % 4 →
      0 ≤ u → u < 3 →
      applyWrites (cirRefreshArea24 pScrn ⟨S, -1⟩ shadow [b]) fb
          (r * BitmapBytePad (pScrn.displayWidth * 24) + (3 * cp + u)) =
        applyWrites (cirRefreshArea24 pScrn ⟨S, 1⟩ shadow [b]) fb'
          ((pScrn.virtualY - 1 - r) * BitmapBytePad (pScrn.displayWidth * 24) +
            (3 * (pScrn.virtualX - 1 - cp) + u))) ∧
    ((4 : Int) ∣ S → b.y2 ≤ pScrn.virtualX →
      ∀ r cp u : Int, pScrn.virtualY - b.x2 ≤ r → r < pScrn.virtualY - b.x1 →
      b.y1 ≤ cp → cp < b.y2 → 0 ≤ u → u < 4 →
      applyWrites (cirRefreshArea32 pScrn ⟨S, -1⟩ shadow [b]) fb
          (r * (4 * pScrn.displayWidth) + (4 * cp + u)) =
        applyWrites (cirRefreshArea32 pScrn ⟨S, 1⟩ shadow [b]) fb'
          ((pScrn.virtualY - 1 - r) * (4 * pScrn.displayWidth) +
            (4 * (pScrn.virtualX - 1 - cp) + u))) := by
  refine ⟨?_, ?_, ?_, ?_⟩
  · intro hfit r c h1 h2 h3 h4
    rw [applyW8_rot270 pScrn S shadow fb b hsh hy1 hfit hdw r c h1 h2 h3 h4,
      applyW8_rot90 pScrn S shadow fb' b hsh hy1 hfit hdw
        (pScrn.virtualY - 1 - r) (pScrn.virtualX - 1 - c) (by omega) (by omega)
        (by omega) (by omega)]
    congr 1
    ring
  · intro hs2 hfit r cp u h1 h2 h3 h4 h5 h6
    rw [applyW16_rot270 pScrn S shadow fb b hsh hs2 hy1 hfit hdw r cp u h1 h2
        h3 h4 h5 h6,
      applyW16_rot90 pScrn S shadow fb' b hsh hs2 hy1 hfit hdw
        (pScrn.virtualY - 1 - r) (pScrn.virtualX - 1 - cp) u (by omega)
        (by omega) (by omega) (by omega) h5 h6]
    congr 1
    ring
  · intro hfit r cp u h1 h2 h3 h4 h5 h6
    rw [applyW24_rot270 pScrn S shadow fb b hsh hy1 hfit hdw r cp u h1 h2 h3 h4
        h5 h6,
      applyW24_rot90 pScrn S shadow fb' b hsh hy1 hfit hdw
        (pScrn.virtualY - 1 - r) (pScrn.virtualX - 1 - cp) u (by omega)
        (by omega) (by omega) (by omega) h5 h6]
    congr 1
    ring
  · intro hs4 hfit r cp u h1 h2 h3 h4 h5 h6
    rw [applyW32_rot270 pScrn S shadow fb b hsh hs4 hy1 hfit hdw r cp u h1 h2
        h3 h4 h5 h6,
      applyW32_rot90 pScrn S shadow fb' b hsh hs4 hy1 hfit hdw
        (pScrn.virtualY - 1 - r) (pScrn.virtualX - 1 - cp) u (by omega)
        (by omega) (by omega) (by omega) h5 h6]
    congr 1
    ring

/-- C7 counterexample: with `virtualX = 2` (not a multiple of the
packing group) and an in-bounds edge box, the 8 bpp Rotate270 result
differs from the point-reflected Rotate90 result at a blitted
position. -/
theorem rotate270_eq_rot90_reflected_counterexample :
    applyWrites (cirRefreshArea8 ⟨8, 2, 2, 4⟩ ⟨4, -1⟩ shTest [⟨0, 0, 4, 2⟩]) mem0
        (1 * 2 + 0) ≠
      applyWrites (cirRefreshArea8 ⟨8, 2, 2, 4⟩ ⟨4, 1⟩ shTest [⟨0, 0, 4, 2⟩]) mem0
        ((4 - 1 - 1) * 2 + (2 - 1 - 0)) := by decide

/-- Witness for C7 at an aligned 4x4 configuration, 8 bpp part. -/
theorem rotate270_eq_rot90_reflected_witness :
    applyWrites (cirRefreshArea8 ⟨8, 4, 4, 4⟩ ⟨4, -1⟩ shTest [⟨1, 0, 3, 2⟩]) mem0
        (1 * 4 + 0) =
      applyWrites (cirRefreshArea8 ⟨8, 4, 4, 4⟩ ⟨4, 1⟩ shTest [⟨1, 0, 3, 2⟩]) mem0
        ((4 - 1 - 1) * 4 + (4 - 1 - 0)) :=
  (rotate270_eq_rot90_reflected ⟨8, 4, 4, 4⟩ 4 shTest mem0 mem0 ⟨1, 0, 3, 2⟩
      shTest_lt256 (by decide) (by decide)).1 (by decide)
    1 0 (by decide) (by decide) (by decide) (by decide)

/-! ### C1: the Rotate90 / Rotate270 round trip -/

/-- All byte values the 8 bpp blitter stores are below 256. -/
theorem cirRefreshArea8_val_lt (pScrn : ScrnRec) (pCir : CirRec) (shadow : Mem)
    (bs : List Box) : ∀ w ∈ cirRefreshArea8 pScrn pCir shadow bs, w.2 < 256 := by
  intro w hw
  simp only [cirRefreshArea8, cirRefreshArea8Box, List.mem_flatMap,
    List.mem_range] at hw
  obtain ⟨b, _, i, _, j, _, hw⟩ := hw
  exact store32writes_val_lt _ _ _ hw

/-- All byte values the 16 bpp blitter stores are below 256. -/
theorem cirRefreshArea16_val_lt (pScrn : ScrnRec) (pCir : CirRec) (shadow : Mem)
    (bs : List Box) : ∀ w ∈ cirRefreshArea16 pScrn pCir shadow bs, w.2 < 256 := by
  intro w hw
  simp only [cirRefreshArea16, cirRefreshArea16Box, List.mem_flatMap,
    List.mem_range] at hw
  obtain ⟨b, _, i, _, j, _, hw⟩ := hw
  exact store32writes_val_lt _ _ _ hw

/-- All byte values the 24 bpp blitter stores are below 256. -/
theorem cirRefreshArea24_val_lt (pScrn : ScrnRec) (pCir : CirRec) (shadow : Mem)
    (bs : List Box) : ∀ w ∈ cirRefreshArea24 pScrn pCir shadow bs, w.2 < 256 := by
  intro w hw
  simp only [cirRefreshArea24, cirRefreshArea24Box, List.mem_flatMap,
    List.mem_range, List.mem_append] at hw
  obtain ⟨b, _, i, _, j, _, hw⟩ := hw
  rcases hw with (hw | hw) | hw <;> exact store32writes_val_lt _ _ _ hw

/-- All byte values the 32 bpp blitter stores are below 256. -/
theorem cirRefreshArea32_val_lt (pScrn : ScrnRec) (pCir : CirRec) (shadow : Mem)
    (bs : List Box) : ∀ w ∈ cirRefreshArea32 pScrn pCir shadow bs, w.2 < 256 := by
  intro w hw
  simp only [cirRefreshArea32, cirRefreshArea32Box, List.mem_flatMap,
    List.mem_range] at hw
  obtain ⟨b, _, i, _, j, _, hw⟩ := hw
  exact store32writes_val_lt _ _ _ hw

/-- C1 (amended): for each bpp, blitting a fully-dirty `W x H` shadow
buffer with rotation 1 into a framebuffer of transposed dimensions,
then blitting that result back with rotation -1, reconstructs the
original shadow bytes bit-for-bit — provided that engine's own
conditions hold: dimensions a multiple of 4 at 8/24 bpp; dimensions a
multiple of 2 and an even shadow pitch at 16 bpp; only a shadow pitch
divisible by 4 at 32 bpp (the engine divides the pitch by its element
size; no dimension condition).  The pitches must hold a full
transposed row. -/
theorem rotate_round_trip (W H d1 d2 S1 : Int) (shadow fb0 fb0' : Mem)
    (hsh : ∀ p : Int, shadow p < 256) (hfb0 : ∀ a : Int, fb0 a < 256)
    (hd1 : H ≤ d1) (hd2 : W ≤ d2) :
    ((4 : Int) ∣ W → (4 : Int) ∣ H →
      ∀ r c : Int, 0 ≤ r → r < H → 0 ≤ c → c < W →
      applyWrites (cirRefreshArea8 ⟨8, d2, W, H⟩ ⟨d1, -1⟩
          (applyWrites (cirRefreshArea8 ⟨8, d1, H, W⟩ ⟨S1, 1⟩ shadow
            [⟨0, 0, W, H⟩]) fb0) [⟨0, 0, H, W⟩]) fb0' (r * d2 + c) =
        shadow (r * S1 + c)) ∧
    ((2 : Int) ∣ W → (2 : Int) ∣ H → (2 : Int) ∣ S1 →
      ∀ r cp u : Int, 0 ≤ r → r < H → 0 ≤ cp → cp < W → 0 ≤ u → u < 2 →
      applyWrites (cirRefreshArea16 ⟨16, d2, W, H⟩ ⟨2 * d1, -1⟩
          (applyWrites (cirRefreshArea16 ⟨16, d1, H, W⟩ ⟨S1, 1⟩ shadow
            [⟨0, 0, W, H⟩]) fb0) [⟨0, 0, H, W⟩]) fb0'
          (r * (2 * d2) + (2 * cp + u)) =
        shadow (r * S1 + (2 * cp + u))) ∧
    ((4 : Int) ∣ W → (4 : Int) ∣ H →
      ∀ r cp u : Int, 0 ≤ r → r < H → 0 ≤ cp → cp < W → 0 ≤ u → u < 3 →
      applyWrites (cirRefreshArea24 ⟨24, d2, W, H⟩ ⟨BitmapBytePad (d1 * 24), -1⟩
          (applyWrites (cirRefreshArea24 ⟨24, d1, H, W⟩ ⟨S1, 1⟩ shadow
            [⟨0, 0, W, H⟩]) fb0) [⟨0, 0, H, W⟩]) fb0'
          (r * BitmapBytePad (d2 * 24) + (3 * cp + u)) =
        shadow (r * S1 + (3 * cp + u))) ∧
    ((4 : Int) ∣ S1 →
      ∀ r cp u : Int, 0 ≤ r → r < H → 0 ≤ cp → cp < W → 0 ≤ u → u < 4 →
      applyWrites (cirRefreshArea32 ⟨32, d2, W, H⟩ ⟨4 * d1, -1⟩
          (applyWrites (cirRefreshArea32 ⟨32, d1, H, W⟩ ⟨S1, 1⟩ shadow
            [⟨0, 0, W, H⟩]) fb0) [⟨0, 0, H, W⟩]) fb0'
          (r * (4 * d2) + (4 * cp + u)) =
        shadow (r * S1 + (4 * cp + u))) := by
  refine ⟨?_, ?_, ?_, ?_⟩
  · intro hW4 hH4 r c hr0 hr1 hc0 hc1
    have hsh2 : ∀ a : Int, applyWrites (cirRefreshArea8 ⟨8, d1, H, W⟩ ⟨S1, 1⟩
        shadow [⟨0, 0, W, H⟩]) fb0 a < 256 :=
      applyWrites_lt256 _ _ hfb0 (cirRefreshArea8_val_lt _ _ _ _)
    have step2 : applyWrites (cirRefreshArea8 ⟨8, d2, W, H⟩ ⟨d1, -1⟩
        (applyWrites (cirRefreshArea8 ⟨8, d1, H, W⟩ ⟨S1, 1⟩ shadow
          [⟨0, 0, W, H⟩]) fb0) [⟨0, 0, H, W⟩]) fb0' (r * d2 + c) =
        applyWrites (cirRefreshArea8 ⟨8, d1, H, W⟩ ⟨S1, 1⟩ shadow
          [⟨0, 0, W, H⟩]) fb0 (c * d1 + (H - 1 - r)) :=
      applyW8_rot270 ⟨8, d2, W, H⟩ d1 _ fb0' ⟨0, 0, H, W⟩ hsh2
        (by dsimp only; omega) (by dsimp only; omega) (by dsimp only; omega)
        r c (by dsimp only; omega) (by dsimp only; omega)
        (by dsimp only; omega) (by dsimp only; omega)
    have step1 : applyWrites (cirRefreshArea8 ⟨8, d1, H, W⟩ ⟨S1, 1⟩ shadow
        [⟨0, 0, W, H⟩]) fb0 (c * d1 + (H - 1 - r)) =
        shadow ((H - 1 - (H - 1 - r)) * S1 + c) :=
      applyW8_rot90 ⟨8, d1, H, W⟩ S1 shadow fb0 ⟨0, 0, W, H⟩ hsh
        (by dsimp only; omega) (by dsimp only; omega) (by dsimp only; omega)
        c (H - 1 - r) (by dsimp only; omega) (by dsimp only; omega)
        (by dsimp only; omega) (by dsimp only; omega)
    rw [step2, step1]
    congr 1
    ring
  · intro hW2 hH2 hs12 r cp u hr0 hr1 hc0 hc1 hu0 hu1
    have hsh2 : ∀ a : Int, applyWrites (cirRefreshArea16 ⟨16, d1, H, W⟩ ⟨S1, 1⟩
        shadow [⟨0, 0, W, H⟩]) fb0 a < 256 :=
      applyWrites_lt256 _ _ hfb0 (cirRefreshArea16_val_lt _ _ _ _)
    have step2 : applyWrites (cirRefreshArea16 ⟨16, d2, W, H⟩ ⟨2 * d1, -1⟩
        (applyWrites (cirRefreshArea16 ⟨16, d1, H, W⟩ ⟨S1, 1⟩ shadow
          [⟨0, 0, W, H⟩]) fb0) [⟨0, 0, H, W⟩]) fb0'
          (r * (2 * d2) + (2 * cp + u)) =
        applyWrites (cirRefreshArea16 ⟨16, d1, H, W⟩ ⟨S1, 1⟩ shadow
          [⟨0, 0, W, H⟩]) fb0 (cp * (2 * d1) + (2 * (H - 1 - r) + u)) :=
      applyW16_rot270 ⟨16, d2, W, H⟩ (2 * d1) _ fb0' ⟨0, 0, H, W⟩ hsh2
        ⟨d1, by ring⟩ (by dsimp only; omega) (by dsimp only; omega)
        (by dsimp only; omega) r cp u (by dsimp only; omega)
        (by dsimp only; omega) (by dsimp only; omega) (by dsimp only; omega)
        hu0 hu1
    have step1 : applyWrites (cirRefreshArea16 ⟨16, d1, H, W⟩ ⟨S1, 1⟩ shadow
        [⟨0, 0, W, H⟩]) fb0 (cp * (2 * d1) + (2 * (H - 1 - r) + u)) =
        shadow ((H - 1 - (H - 1 - r)) * S1 + (2 * cp + u)) :=
      applyW16_rot90 ⟨16, d1, H, W⟩ S1 shadow fb0 ⟨0, 0, W, H⟩ hsh hs12
        (by dsimp only; omega) (by dsimp only; omega) (by dsimp only; omega)
        cp (H - 1 - r) u (by dsimp only; omega) (by dsimp only; omega)
        (by dsimp only; omega) (by dsimp only; omega) hu0 hu1
    rw [step2, step1]
    congr 1
    ring
  · intro hW4 hH4 r cp u hr0 hr1 hc0 hc1 hu0 hu1
    have hsh2 : ∀ a : Int, applyWrites (cirRefreshArea24 ⟨24, d1, H, W⟩ ⟨S1, 1⟩
        shadow [⟨0, 0, W, H⟩]) fb0 a < 256 :=
      applyWrites_lt256 _ _ hfb0 (cirRefreshArea24_val_lt _ _ _ _)
    have step2 : applyWrites (cirRefreshArea24 ⟨24, d2, W, H⟩
        ⟨BitmapBytePad (d1 * 24), -1⟩
        (applyWrites (cirRefreshArea24 ⟨24, d1, H, W⟩ ⟨S1, 1⟩ shadow
          [⟨0, 0, W, H⟩]) fb0) [⟨0, 0, H, W⟩]) fb0'
          (r * BitmapBytePad (d2 * 24) + (3 * cp + u)) =
        applyWrites (cirRefreshArea24 ⟨24, d1, H, W⟩ ⟨S1, 1⟩ shadow
          [⟨0, 0, W, H⟩]) fb0
          (cp * BitmapBytePad (d1 * 24) + (3 * (H - 1 - r) + u)) :=
      applyW24_rot270 ⟨24, d2, W, H⟩ (BitmapBytePad (d1 * 24)) _ fb0'
        ⟨0, 0, H, W⟩ hsh2 (by dsimp only; omega) (by dsimp only; omega)
        (by dsimp only; omega) r cp u (by dsimp only; omega)
        (by dsimp only; omega) (by dsimp only; omega) (by dsimp only; omega)
        hu0 hu1
    have step1 : applyWrites (cirRefreshArea24 ⟨24, d1, H, W⟩ ⟨S1, 1⟩ shadow
        [⟨0, 0, W, H⟩]) fb0
        (cp * BitmapBytePad (d1 * 24) + (3 * (H - 1 - r) + u)) =
        shadow ((H - 1 - (H - 1 - r)) * S1 + (3 * cp + u)) :=
      applyW24_rot90 ⟨24, d1, H, W⟩ S1 shadow fb0 ⟨0, 0, W, H⟩ hsh
        (by dsimp only; omega) (by dsimp only; omega) (by dsimp only; omega)
        cp (H - 1 - r) u (by dsimp only; omega) (by dsimp only; omega)
        (by dsimp only; omega) (by dsimp only; omega) hu0 hu1
    rw [step2, step1]
    congr 1
    ring
  · intro hs14 r cp u hr0 hr1 hc0 hc1 hu0 hu1
    have hsh2 : ∀ a : Int, applyWrites (cirRefreshArea32 ⟨32, d1, H, W⟩ ⟨S1, 1⟩
        shadow [⟨0, 0, W, H⟩]) fb0 a < 256 :=
      applyWrites_lt256 _ _ hfb0 (cirRefreshArea32_val_lt _ _ _ _)
    have step2 : applyWrites (cirRefreshArea32 ⟨32, d2, W, H⟩ ⟨4 * d1, -1⟩
        (applyWrites (cirRefreshArea32 ⟨32, d1, H, W⟩ ⟨S1, 1⟩ shadow
          [⟨0, 0, W, H⟩]) fb0) [⟨0, 0, H, W⟩]) fb0'
          (r * (4 * d2) + (4 * cp + u)) =
        applyWrites (cirRefreshArea32 ⟨32, d1, H, W⟩ ⟨S1, 1⟩ shadow
          [⟨0, 0, W, H⟩]) fb0 (cp * (4 * d1) + (4 * (H - 1 - r) + u)) :=
      applyW32_rot270 ⟨32, d2, W, H⟩ (4 * d1) _ fb0' ⟨0, 0, H, W⟩ hsh2
        ⟨d1, by ring⟩ (by dsimp only; omega) (by dsimp only; omega)
        (by dsimp only; omega) r cp u (by dsimp only; omega)
        (by dsimp only; omega) (by dsimp only; omega) (by dsimp only; omega)
        hu0 hu1
    have step1 : applyWrites (cirRefreshArea32 ⟨32, d1, H, W⟩ ⟨S1, 1⟩ shadow
        [⟨0, 0, W, H⟩]) fb0 (cp * (4 * d1) + (4 * (H - 1 - r) + u)) =
        shadow ((H - 1 - (H - 1 - r)) * S1 + (4 * cp + u)) :=
      applyW32_rot90 ⟨32, d1, H, W⟩ S1 shadow fb0 ⟨0, 0, W, H⟩ hsh hs14
        (by dsimp only; omega) (by dsimp only; omega) (by dsimp only; omega)
        cp (H - 1 - r) u (by dsimp only; omega) (by dsimp only; omega)
        (by dsimp only; omega) (by dsimp only; omega) hu0 hu1
    rw [step2, step1]
    congr 1
    ring

/-- C1 counterexample: without the group-divisibility condition the
round trip corrupts data.  Shadow 4 wide, 2 high (2 not a multiple of
4), pitch 4; the 8 bpp Rotate90 blit into a 2-wide framebuffer
followed by the Rotate270 blit back loses the byte at offset 1. -/
theorem rotate_round_trip_counterexample :
    applyWrites (cirRefreshArea8 ⟨8, 4, 4, 2⟩ ⟨2, -1⟩
        (applyWrites (cirRefreshArea8 ⟨8, 2, 2, 4⟩ ⟨4, 1⟩ shTest
          [⟨0, 0, 4, 2⟩]) mem0) [⟨0, 0, 2, 4⟩]) mem0 1 ≠ shTest 1 := by decide

/-- Witness for C1 on an aligned 4x4 8 bpp shadow buffer. -/
theorem rotate_round_trip_witness :
    applyWrites (cirRefreshArea8 ⟨8, 4, 4, 4⟩ ⟨4, -1⟩
        (applyWrites (cirRefreshArea8 ⟨8, 4, 4, 4⟩ ⟨4, 1⟩ shTest
          [⟨0, 0, 4, 4⟩]) mem0) [⟨0, 0, 4, 4⟩]) mem0 (0 * 4 + 1) =
      shTest (0 * 4 + 1) :=
  (rotate_round_trip 4 4 4 4 4 shTest mem0 mem0 shTest_lt256 mem0_lt256
      (by decide) (by decide)).1 (by decide) (by decide)
    0 1 (by decide) (by decide) (by decide) (by decide)
